import Mathlib

/-!
# ToreroServe: request parsing, dispatch queue and response generation

A shallow embedding of `torero-serve.cpp` and `BoundedBuffer.cpp`.

Byte strings (`std::string`, `char*` buffers) are lists of characters.
The three `std::regex` patterns of the server are sequences of single-character
tests and one greedy character-class star; they are run by a backtracking
matcher with the ECMAScript priority order (leftmost start, longest star first).

The handler is given twice: `handleClient` on a host where every filesystem
query answers and every stream opens, and `Host.handleClient` on any host, where
a query may throw and a stream may fail to open (`Faults`); the two agree on a
host without faults (`host_handleClient_clean`).
-/

namespace ToreroServe

set_option maxRecDepth 100000

/-! ## Character classes of the regular expressions (classic "C" locale) -/

/-- Class `\d`: a decimal digit. -/
def isDigit (c : Char) : Bool := decide (48 ≤ c.toNat) && decide (c.toNat ≤ 57)

/-- Class `\w`: a letter, a decimal digit or the underscore. -/
def isWord (c : Char) : Bool :=
  (decide (65 ≤ c.toNat) && decide (c.toNat ≤ 90)) ||
  (decide (97 ≤ c.toNat) && decide (c.toNat ≤ 122)) ||
  isDigit c || c == '_'

/-- Class `\s`: space, `\t`, `\n`, `\v`, `\f`, `\r`. -/
def isSpace (c : Char) : Bool :=
  c.toNat == 32 || (decide (9 ≤ c.toNat) && decide (c.toNat ≤ 13))

/-- Bracket class `[\w\-\./]` of the request pattern; the object pattern's
`[\w\./\-]` lists the same members. -/
def isPathChar (c : Char) : Bool := isWord c || c == '-' || c == '.' || c == '/'

/-! ## Backtracking matcher -/

/-- One element of a pattern: a single character test, or a greedy star over
a character test. -/
inductive Atom where
  | one (p : Char → Bool)
  | star (p : Char → Bool)

/-- Greedy star: consume as many characters satisfying `p` as possible, and
give characters back one at a time while the continuation `k` fails. -/
def starGo (p : Char → Bool) (k : List Char → Option (List Char)) :
    List Char → Option (List Char)
  | [] => k []
  | c :: cs =>
    if p c then
      match starGo p k cs with
      | some m => some (c :: m)
      | none => k (c :: cs)
    else k (c :: cs)

/-- Match a pattern at the start of the input; the result is the matched text. -/
def matchHere : List Atom → List Char → Option (List Char)
  | [], _ => some []
  | Atom.one p :: rest, s =>
    match s with
    | [] => none
    | c :: cs => if p c then (matchHere rest cs).map (fun m => c :: m) else none
  | Atom.star p :: rest, s => starGo p (fun t => matchHere rest t) s

/-- Search of `std::regex_search`: the match at the leftmost start position
that has one; `none` when there is no match. This is sub-match 0. -/
def regex_search (pat : List Atom) : List Char → Option (List Char)
  | [] => matchHere pat []
  | c :: cs =>
    match matchHere pat (c :: cs) with
    | some m => some m
    | none => regex_search pat cs

/-- A literal string as a pattern. -/
def lit (s : String) : List Atom := s.toList.map (fun c => Atom.one (fun d => d == c))

/-- Pattern `(GET\s[\w\-\./]*\sHTTP/\d\.\d)` of `handleClient`. -/
def format : List Atom :=
  lit "GET" ++ [Atom.one isSpace, Atom.star isPathChar, Atom.one isSpace] ++
  lit "HTTP/" ++ [Atom.one isDigit, Atom.one (fun d => d == '.'), Atom.one isDigit]

/-- Pattern `(HTTP/\d\.\d)` of `getVer`. -/
def verFormat : List Atom :=
  lit "HTTP/" ++ [Atom.one isDigit, Atom.one (fun d => d == '.'), Atom.one isDigit]

/-- Pattern `(/[\w\./\-]*)` of `getObj`. -/
def objFormat : List Atom := [Atom.one (fun d => d == '/'), Atom.star isPathChar]

/-- The sentinel string returned for a failed search. -/
def emptyTag : List Char := "empty".toList

/-- Function `regexCheck`: the match of the pattern in the request, or the
string `empty` when the search finds none. -/
def regexCheck (request_string : List Char) (pat : List Atom) : List Char :=
  match regex_search pat request_string with
  | none => emptyTag
  | some m => m

/-- Function `getVer`. -/
def getVer (requestChecked : List Char) : List Char := regexCheck requestChecked verFormat

/-- Function `getObj`. -/
def getObj (requestChecked : List Char) : List Char := regexCheck requestChecked objFormat

/-! ## Filesystem and socket model -/

/-- The host filesystem as the server observes it: what each query answers
when it answers. The paths on which a query throws or a stream fails to open
are described separately by `Faults`. -/
structure FS where
  /-- Answer of `fs::is_directory`. -/
  is_directory : List Char → Bool
  /-- Answer of `fs::is_regular_file`. -/
  is_regular_file : List Char → Bool
  /-- Answer of `fs::file_size`. -/
  file_size : List Char → Nat
  /-- Bytes an input stream opened on the path delivers up to end of file. -/
  contents : List Char → List Char
  /-- File names met by `fs::directory_iterator`, in enumeration order. -/
  entries : List Char → List (List Char)

/-- The paths on which the host makes a library call of the handler fail. -/
structure Faults where
  /-- Here `fs::status` reports an error other than a missing file (a name too
  long, a directory that may not be searched): `fs::is_directory` and
  `fs::is_regular_file` throw `fs::filesystem_error`. -/
  status_throws : List Char → Bool
  /-- Here `fs::file_size` throws `fs::filesystem_error`. -/
  size_throws : List Char → Bool
  /-- Here `fs::directory_iterator` throws `fs::filesystem_error`. -/
  iter_throws : List Char → Bool
  /-- Here the `std::ifstream` fails to open. -/
  open_fails : List Char → Bool

/-- A host on which no call fails. -/
def noFaults : Faults := ⟨fun _ => false, fun _ => false, fun _ => false, fun _ => false⟩

/-- Function `checkFile`, where the query answers (see `Host.checkFile`). -/
def checkFile (fs : FS) (fileName : List Char) : Bool := fs.is_regular_file fileName

/-- Function `checkDir`, where the query answers (see `Host.checkDir`). -/
def checkDir (fs : FS) (thePath : List Char) : Bool := fs.is_directory thePath

/-- The suffix of the text starting at the last occurrence of `c`. -/
def fromLast (c : Char) : List Char → Option (List Char)
  | [] => none
  | x :: xs =>
    match fromLast c xs with
    | some r => some r
    | none => if x == c then some (x :: xs) else none

/-- Member `filename()` of `fs::path`: what follows the last `/`. -/
def filename (p : List Char) : List Char :=
  match fromLast '/' p with
  | some r => r.tail
  | none => p

/-- Member `extension()` of `fs::path`: from the last period of the file name
on, unless the name is `.` or `..` or its only period is its first character. -/
def extension (p : List Char) : List Char :=
  let f := filename p
  if f == ".".toList || f == "..".toList then []
  else
    match f with
    | [] => []
    | _ :: xs =>
      match fromLast '.' xs with
      | some r => r
      | none => []

/-- Function `fileType`: the MIME table. -/
def fileType (fileName : List Char) : List Char :=
  let ext := extension fileName
  if ext == ".html".toList then "text/html".toList
  else if ext == ".css".toList then "text/css".toList
  else if ext == ".txt".toList then "text/plain".toList
  else if ext == ".jpg".toList then "image/jpeg".toList
  else if ext == ".gif".toList then "image/gif".toList
  else if ext == ".png".toList then "image/png".toList
  else if ext == ".pdf".toList then "application/pdf".toList
  else "other".toList

/-- Function `std::to_string` on an unsigned value: its decimal digits. -/
def to_string (n : Nat) : List Char := (Nat.repr n).toList

/-- How a procedure of the handler ends. -/
inductive Flow where
  /-- The procedure returned to its caller. -/
  | returned
  /-- A `std::system_error` was thrown and is propagating. -/
  | threw
  /-- The procedure called `exit(1)`. -/
  | exited
  /-- The procedure never returns: the loop of `sendObj` spins on a stream that
  failed to open, or the loop budget of the model ran out (not the case while the
  primitive reports positive counts, see `sendData_returns` and
  `sendObjLoop_returns`). -/
  | diverged
  deriving DecidableEq, Repr

/-- The client socket as the handler acts on it. -/
structure Sock where
  /-- Bytes put on the wire so far, in order. -/
  wire : List Char
  /-- Number of calls of the `send` primitive so far. -/
  sends : Nat
  /-- Number of calls of `close` so far. -/
  closes : Nat
  deriving DecidableEq, Repr

/-- A fresh accepted socket. -/
def Sock.fresh : Sock := ⟨[], 0, 0⟩

/-- The `send` primitive: the `int` it reports at its `i`-th call when asked
to transmit `n` bytes (`-1` error, `0` peer closed, `k > 0` bytes accepted). -/
abbrev Send := Nat → Nat → Int

/-- A primitive that always transmits the whole buffer. -/
def fullSend : Send := fun _ n => (n : Int)

/-- Conversion `static_cast<int>` of a `size_t`. -/
def toInt32 (n : Nat) : Int := (((n + 2 ^ 31) % 2 ^ 32 : Nat) : Int) - 2 ^ 31

/-- A void procedure acting on the socket. -/
abbrev Proc := Sock → Flow × Sock

/-- Sequencing of two statements: the second runs only if the first returned. -/
def andThen (f g : Proc) : Proc := fun s =>
  match f s with
  | (Flow.returned, s1) => g s1
  | r => r

/-- The `while` loop of `sendData`. Every call hands the primitive the same
start `data` and the same length `data_length`; a positive result `sent` means
the primitive put the first `sent` bytes of that buffer on the wire. -/
def sendDataLoop (send : Send) (data : List Char) (data_length : Nat)
    (convertDataLength : Int) : Nat → Int → Proc
  | 0, num_bytes_sent, s =>
    if num_bytes_sent < convertDataLength then (Flow.diverged, s) else (Flow.returned, s)
  | fuel + 1, num_bytes_sent, s =>
    if num_bytes_sent < convertDataLength then
      let sent := send s.sends data_length
      let s1 : Sock := ⟨s.wire, s.sends + 1, s.closes⟩
      if sent == -1 then (Flow.threw, s1)
      else if sent == 0 then (Flow.exited, s1)
      else
        sendDataLoop send data data_length convertDataLength fuel (num_bytes_sent + sent)
          ⟨s1.wire ++ data.take sent.toNat, s1.sends, s1.closes⟩
    else (Flow.returned, s)

/-- Function `sendData`. -/
def sendData (send : Send) (data : List Char) (data_length : Nat) : Proc :=
  sendDataLoop send data data_length (toInt32 data_length) (toInt32 data_length).toNat 0

/-- Call `close(client_sock)`. -/
def close : Proc := fun s => (Flow.returned, ⟨s.wire, s.sends, s.closes + 1⟩)

/-! ## Responses -/

/-- Function `sendHTTP400`. -/
def sendHTTP400 (send : Send) (version : List Char) : Proc :=
  let response400 := version ++ " 400 BAD REQUEST\r\n\r\n".toList
  sendData send response400 response400.length

/-- The fixed body of the 404 response. -/
def notFoundHTML : List Char :=
  ("<html><head><title>Ruh-roh! Page not found!</title></head><body>" ++
   "<h1>404 Page Not Found! :'( :'( :'(</h1></body></html>").toList

/-- Function `sendHTTP404`. -/
def sendHTTP404 (send : Send) (version : List Char) : Proc :=
  let response404 := version ++ " 404 Not Found\r\n".toList
  let HTMLObject := notFoundHTML
  let header := "Content-Length: ".toList ++ to_string HTMLObject.length ++
    "\r\nContent-Type: text/html\r\n\r\n".toList
  let obj := HTMLObject ++ "\r\n\r\n".toList
  andThen (sendData send response404 response404.length)
    (andThen (sendData send header header.length) (sendData send obj obj.length))

/-- Function `sendHead`, where the size query answers (see `Host.sendHead`). -/
def sendHead (fs : FS) (send : Send) (fileName : List Char) : Proc :=
  let header := "Content-Length: ".toList ++ to_string (fs.file_size fileName) ++
    "\r\n".toList ++ "Content-Type: ".toList ++ fileType fileName ++ "\r\n\r\n".toList
  sendData send header header.length

/-- Constant `buffer_size` of `sendObj`. -/
def buffer_size : Nat := 4098

/-- The `while (!file.eof())` loop of `sendObj` on the bytes not yet read of a
stream that opened: a read of up to `buffer_size` bytes, the chunk sent, and the
loop left exactly when the read came up short (which raises the end-of-file
flag). A stream that failed to open never raises the flag (see `Host.sendObj`). -/
def sendObjLoop (send : Send) : Nat → List Char → Proc
  | 0, _ => fun s => (Flow.diverged, s)
  | fuel + 1, unread =>
    let file_data := unread.take buffer_size
    let bytesRead := file_data.length
    andThen (sendData send file_data bytesRead)
      (if bytesRead < buffer_size then fun s1 => (Flow.returned, s1)
       else sendObjLoop send fuel (unread.drop buffer_size))

/-- Function `sendObj`, where the stream opens (see `Host.sendObj`). -/
def sendObj (fs : FS) (send : Send) (fileName : List Char) : Proc :=
  let file := fs.contents fileName
  let end_ := "\r\n\r\n".toList
  andThen (sendObjLoop send (file.length / buffer_size + 1) file)
    (sendData send end_ end_.length)

/-- Function `sendHTTP200`, where the size query answers and the stream opens. -/
def sendHTTP200 (fs : FS) (send : Send) (version fileName : List Char) : Proc :=
  let response200 := version ++ " 200 OK \r\n".toList
  andThen (sendData send response200 response200.length)
    (andThen (sendHead fs send fileName) (sendObj fs send fileName))

/-- The `for` loop of `createAndSendIndexAndHTTP200` over the directory entries
still to visit, appending one list item per entry to `HTMLObject`. -/
def indexItems (fs : FS) (theDirectory : List Char) :
    List (List Char) → List Char → List Char
  | [], HTMLObject => HTMLObject
  | name :: more, HTMLObject =>
    let fileName :=
      if checkDir fs (theDirectory ++ "/".toList ++ name) then name ++ "/".toList else name
    let h1 := HTMLObject ++ ("<li><a href=\"".toList ++ fileName ++ "\">".toList)
    let h2 := h1 ++ (fileName ++ "</a></li>".toList)
    indexItems fs theDirectory more h2

/-- The string `HTMLObject` built by `createAndSendIndexAndHTTP200`. -/
def indexHTML (fs : FS) (theDirectory : List Char) : List Char :=
  indexItems fs theDirectory (fs.entries theDirectory) ([] ++ "<html><body><ul>".toList) ++
    "</ul></body></html>".toList

/-- Function `createAndSendIndexAndHTTP200`, where the directory is enumerated
and the status query answers on every entry. -/
def createAndSendIndexAndHTTP200 (fs : FS) (send : Send)
    (theDirectory version : List Char) : Proc :=
  let response200 := version ++ " 200 OK \r\n".toList
  let HTMLObject := indexHTML fs theDirectory
  let header := "Content-Length: ".toList ++ to_string HTMLObject.length ++
    "\r\nContent-Type: text/html\r\n\r\n".toList
  let objToSend := HTMLObject ++ "\r\n\r\n".toList
  andThen (sendData send response200 response200.length)
    (andThen (sendData send header header.length) (sendData send objToSend objToSend.length))

/-! ## The request handler -/

/-- The response procedure `handleClient` selects in its step 3, with the
arguments it passes. -/
inductive Call where
  | http400 (version : List Char)
  | http404 (version : List Char)
  | http200 (version fileName : List Char)
  | index200 (theDirectory version : List Char)
  deriving DecidableEq, Repr

/-- Status code of the response a call sends. -/
def Call.status : Call → Nat
  | Call.http400 _ => 400
  | Call.http404 _ => 404
  | Call.http200 _ _ => 200
  | Call.index200 _ _ => 200

/-- Steps 2 and 3 of `handleClient` up to the choice of the response, where
the filesystem queries answer (see `Host.handleClientCall`). -/
def handleClientCall (fs : FS) (rootDir request_string : List Char) : Call :=
  let requestChecked := regexCheck request_string format
  let version := getVer requestChecked
  let object := getObj requestChecked
  if requestChecked == emptyTag || version == emptyTag || object == emptyTag then
    Call.http400 version
  else
    let object := rootDir ++ object
    if checkDir fs object && object.getLast? == some '/' then
      let indexToCheck := object ++ "index.html".toList
      if checkFile fs indexToCheck then
        Call.http200 version (object ++ "index.html".toList)
      else
        Call.index200 object version
    else if checkFile fs object then
      Call.http200 version object
    else
      Call.http404 version

/-- Running the selected response procedure. -/
def Call.run (fs : FS) (send : Send) : Call → Proc
  | Call.http400 version => sendHTTP400 send version
  | Call.http404 version => sendHTTP404 send version
  | Call.http200 version fileName => sendHTTP200 fs send version fileName
  | Call.index200 theDirectory version =>
    createAndSendIndexAndHTTP200 fs send theDirectory version

/-- Function `handleClient` on a host without faults. The receive step hands
over `none` when `recv` reports `-1` (then `receiveData` throws) and the
received bytes otherwise. The handler on any host is `Host.handleClient`. -/
def handleClient (fs : FS) (send : Send) (rootDir : List Char)
    (received : Option (List Char)) : Proc :=
  match received with
  | none => fun s => (Flow.threw, s)
  | some request_string =>
    andThen ((handleClientCall fs rootDir request_string).run fs send) close

/-! ## The request handler on a host with faults

None of the calls below is inside a `try` block, so an exception thrown by a
filesystem call leaves `handleClient` at that point. -/

/-- Function `checkDir`: `none` when `fs::is_directory` throws. -/
def Host.checkDir (fs : FS) (flt : Faults) (thePath : List Char) : Option Bool :=
  if flt.status_throws thePath then none else some (fs.is_directory thePath)

/-- Function `checkFile`: `none` when `fs::is_regular_file` throws. -/
def Host.checkFile (fs : FS) (flt : Faults) (fileName : List Char) : Option Bool :=
  if flt.status_throws fileName then none else some (fs.is_regular_file fileName)

/-- Steps 2 and 3 of `handleClient` up to the choice of the response; `none`
when a filesystem query throws before a response is chosen. -/
def Host.handleClientCall (fs : FS) (flt : Faults) (rootDir request_string : List Char) :
    Option Call :=
  let requestChecked := regexCheck request_string format
  let version := getVer requestChecked
  let object := getObj requestChecked
  if requestChecked == emptyTag || version == emptyTag || object == emptyTag then
    some (Call.http400 version)
  else
    let object := rootDir ++ object
    match Host.checkDir fs flt object with
    | none => none
    | some isDir =>
      if isDir && object.getLast? == some '/' then
        let indexToCheck := object ++ "index.html".toList
        match Host.checkFile fs flt indexToCheck with
        | none => none
        | some true => some (Call.http200 version (object ++ "index.html".toList))
        | some false => some (Call.index200 object version)
      else
        match Host.checkFile fs flt object with
        | none => none
        | some true => some (Call.http200 version object)
        | some false => some (Call.http404 version)

/-- Function `sendHead`: `fs::file_size` is called while the header is built,
before anything of it is sent. -/
def Host.sendHead (fs : FS) (flt : Faults) (send : Send) (fileName : List Char) : Proc :=
  if flt.size_throws fileName then fun s => (Flow.threw, s)
  else ToreroServe.sendHead fs send fileName

/-- Function `sendObj`: on a stream that failed to open every read fails
without raising the end-of-file flag, so `while (!file.eof())` sends chunks of
0 bytes (no call of `send`) for ever. -/
def Host.sendObj (fs : FS) (flt : Faults) (send : Send) (fileName : List Char) : Proc :=
  if flt.open_fails fileName then fun s => (Flow.diverged, s)
  else ToreroServe.sendObj fs send fileName

/-- Function `sendHTTP200`. -/
def Host.sendHTTP200 (fs : FS) (flt : Faults) (send : Send) (version fileName : List Char) :
    Proc :=
  let response200 := version ++ " 200 OK \r\n".toList
  andThen (sendData send response200 response200.length)
    (andThen (Host.sendHead fs flt send fileName) (Host.sendObj fs flt send fileName))

/-- Function `createAndSendIndexAndHTTP200`: the status line is sent first;
the enumeration of the directory and the `checkDir` of each entry come next
and may throw; the header and the body are sent last. -/
def Host.createAndSendIndexAndHTTP200 (fs : FS) (flt : Faults) (send : Send)
    (theDirectory version : List Char) : Proc :=
  let response200 := version ++ " 200 OK \r\n".toList
  let HTMLObject := indexHTML fs theDirectory
  let header := "Content-Length: ".toList ++ to_string HTMLObject.length ++
    "\r\nContent-Type: text/html\r\n\r\n".toList
  let objToSend := HTMLObject ++ "\r\n\r\n".toList
  andThen (sendData send response200 response200.length)
    (if flt.iter_throws theDirectory ||
        (fs.entries theDirectory).any
          (fun fileName => flt.status_throws (theDirectory ++ "/".toList ++ fileName)) then
      fun s => (Flow.threw, s)
    else
      andThen (sendData send header header.length) (sendData send objToSend objToSend.length))

/-- Running the selected response procedure. -/
def Host.run (fs : FS) (flt : Faults) (send : Send) : Call → Proc
  | Call.http400 version => sendHTTP400 send version
  | Call.http404 version => sendHTTP404 send version
  | Call.http200 version fileName => Host.sendHTTP200 fs flt send version fileName
  | Call.index200 theDirectory version =>
    Host.createAndSendIndexAndHTTP200 fs flt send theDirectory version

/-- Function `handleClient`. The receive step hands over `none` when `recv`
reports `-1` (then `receiveData` throws) and the received bytes otherwise;
`close` is reached only when the response procedure returns. -/
def Host.handleClient (fs : FS) (flt : Faults) (send : Send) (rootDir : List Char)
    (received : Option (List Char)) : Proc :=
  match received with
  | none => fun s => (Flow.threw, s)
  | some request_string =>
    match Host.handleClientCall fs flt rootDir request_string with
    | none => fun s => (Flow.threw, s)
    | some call => andThen (Host.run fs flt send call) close

/-! ## The dispatch queue (`BoundedBuffer.cpp`) -/

/-- Fields of class `BoundedBuffer`; `buffer` is the `std::queue`, front first. -/
structure BoundedBuffer where
  capacity : Int
  count : Int
  head : Int
  tail : Int
  buffer : List Int
  deriving DecidableEq, Repr

/-- Modelled from the spec: the class declaration `BoundedBuffer.hpp` with the
initial field values is not among the sources; the constructor sets the
capacity, the queue starts empty and the count and both indices start at 0. -/
def BoundedBuffer.new (max_size : Int) : BoundedBuffer := ⟨max_size, 0, 0, 0, []⟩

/-- Body of `getItem` once the wait loop `while (count == 0)` is passed.
The result is `none` when `front()` is called on an empty queue. -/
def getItem (b : BoundedBuffer) : Option (Int × BoundedBuffer) :=
  let count := b.count - 1
  match b.buffer with
  | [] => none
  | item :: rest =>
    let tail := b.tail + 1
    let tail := if tail == b.capacity then 0 else tail
    some (item, ⟨b.capacity, count, b.head, tail, rest⟩)

/-- Body of `putItem` once the wait loop `while (count == capacity)` is passed. -/
def putItem (b : BoundedBuffer) (new_item : Int) : BoundedBuffer :=
  let count := b.count + 1
  let buffer := b.buffer ++ [new_item]
  let head := b.head + 1
  let head := if head == b.capacity then 0 else head
  ⟨b.capacity, count, head, b.tail, buffer⟩

/-- One critical section run under the queue's lock. -/
inductive Op where
  | put (new_item : Int)
  | get
  deriving DecidableEq, Repr

/-- The queue together with the history of its operations. -/
structure Trace where
  buf : BoundedBuffer
  /-- Items passed to `putItem` so far, oldest first. -/
  puts : List Int
  /-- Items returned by `getItem` so far, oldest first. -/
  gets : List Int
  deriving DecidableEq, Repr

/-- The start of every run: an empty queue of capacity `B`, nothing put or got. -/
def Trace.start (B : Int) : Trace := ⟨BoundedBuffer.new B, [], []⟩

/-- One step of an interleaving. A `put` runs only when `count != capacity`
and a `get` only when `count != 0` (otherwise the thread waits); the result is
`none` when the operation is not enabled or `getItem` has no defined result. -/
def Trace.step (t : Trace) : Op → Option Trace
  | Op.put x =>
    if t.buf.count == t.buf.capacity then none
    else some ⟨putItem t.buf x, t.puts ++ [x], t.gets⟩
  | Op.get =>
    if t.buf.count == 0 then none
    else
      match getItem t.buf with
      | none => none
      | some (item, b) => some ⟨b, t.puts, t.gets ++ [item]⟩

/-- An interleaving: the critical sections in the order they take the lock. -/
def Trace.exec (t : Trace) : List Op → Option Trace
  | [] => some t
  | op :: ops =>
    match t.step op with
    | none => none
    | some t1 => t1.exec ops

/-! ## Properties stated by the specification -/

/-- Declarative reading of a pattern: the texts it matches. -/
def Matches : List Atom → List Char → Prop
  | [], m => m = []
  | Atom.one p :: rest, m => ∃ c m1, m = c :: m1 ∧ p c = true ∧ Matches rest m1
  | Atom.star p :: rest, m =>
    ∃ run m1, m = run ++ m1 ∧ (∀ c ∈ run, p c = true) ∧ Matches rest m1

/-- The request line form with single space characters: `GET`, SP, a run of
path characters, SP, `HTTP/`, digit, `.`, digit, somewhere in the bytes. -/
def HasRequestLineSP (r : List Char) : Prop :=
  ∃ pre path d1 d2 post,
    r = pre ++ ("GET ".toList ++ path ++ " HTTP/".toList ++ [d1, '.', d2]) ++ post ∧
    (∀ c ∈ path, isPathChar c = true) ∧ isDigit d1 = true ∧ isDigit d2 = true

/-- The request line form with any single whitespace character (class `\s`)
in the two separator positions. -/
def HasRequestLine (r : List Char) : Prop :=
  ∃ pre w1 path w2 d1 d2 post,
    r = pre ++ ("GET".toList ++ [w1] ++ path ++ [w2] ++ "HTTP/".toList ++ [d1, '.', d2])
        ++ post ∧
    isSpace w1 = true ∧ (∀ c ∈ path, isPathChar c = true) ∧ isSpace w2 = true ∧
    isDigit d1 = true ∧ isDigit d2 = true

/-- The name shown for a directory entry: a `/` is appended to directories. -/
def shownName (fs : FS) (theDirectory name : List Char) : List Char :=
  if fs.is_directory (theDirectory ++ "/".toList ++ name) then name ++ "/".toList else name

/-- The list item the specification gives for a shown name. -/
def listItem (NAME : List Char) : List Char :=
  "<li><a href=\"".toList ++ NAME ++ "\">".toList ++ NAME ++ "</a></li>".toList

/-- The list items the specification gives for the children, in order. -/
def listItems (fs : FS) (theDirectory : List Char) : List (List Char) → List Char
  | [] => []
  | name :: more => listItem (shownName fs theDirectory name) ++ listItems fs theDirectory more

/-- Number of positions of the text at which `pat` occurs. -/
def countOcc (pat : List Char) : List Char → Nat
  | [] => 0
  | c :: cs => (if pat.isPrefixOf (c :: cs) then 1 else 0) + countOcc pat cs

/-- The tag `<li>`. -/
def liTag : List Char := "<li>".toList

/-- The resolution table of the specification for a well-formed request with
target `t` and version token `v`, where `P` is the document root followed by
the target. -/
def resolutionTable (fs : FS) (P t v : List Char) : Call :=
  if fs.is_directory P = true ∧ t.getLast? = some '/' then
    if fs.is_regular_file (P ++ "index.html".toList) = true then
      Call.http200 v (P ++ "index.html".toList)
    else Call.index200 P v
  else if fs.is_regular_file P = true then Call.http200 v P
  else Call.http404 v

/-- The invariant of the dispatch queue of capacity `B` along a run. -/
def QueueInv (B : Int) (t : Trace) : Prop :=
  t.buf.capacity = B ∧ 0 ≤ t.buf.count ∧ t.buf.count ≤ t.buf.capacity ∧
  (t.buf.buffer.length : Int) = t.buf.count ∧ t.puts = t.gets ++ t.buf.buffer

/-- The procedure returns after putting exactly `data` on the wire, without
closing the socket. -/
def Emits (p : Proc) (data : List Char) : Prop :=
  ∀ s : Sock, ∃ k, p s = (Flow.returned, ⟨s.wire ++ data, s.sends + k, s.closes⟩)

/-- No call of the handler fails on this host. -/
def Faults.Clean (flt : Faults) : Prop :=
  ∀ p, flt.status_throws p = false ∧ flt.size_throws p = false ∧
    flt.iter_throws p = false ∧ flt.open_fails p = false

/-! ## Example environments -/

/-- A filesystem in which no path exists. -/
def noFiles : FS := ⟨fun _ => false, fun _ => false, fun _ => 0, fun _ => [], fun _ => []⟩

/-- Document root `WWW` with `index.html`, `a.txt` and the empty directory `sub`. -/
def wwwFS : FS where
  is_directory p :=
    p == "WWW".toList || p == "WWW/".toList || p == "WWW/sub".toList ||
      p == "WWW/sub/".toList || p == "WWW//sub".toList
  is_regular_file p := p == "WWW/index.html".toList || p == "WWW/a.txt".toList
  file_size p :=
    if p == "WWW/index.html".toList then 11 else if p == "WWW/a.txt".toList then 3 else 0
  contents p :=
    if p == "WWW/index.html".toList then "<h1>hi</h1>".toList
    else if p == "WWW/a.txt".toList then "xyz".toList else []
  entries p :=
    if p == "WWW/".toList then ["index.html".toList, "a.txt".toList, "sub".toList] else []

/-- Document root `D` with the empty regular file `e`. -/
def sealedFS : FS where
  is_directory p := p == "D".toList || p == "D/".toList
  is_regular_file p := p == "D/e".toList
  file_size _ := 0
  contents _ := []
  entries p := if p == "D/".toList then ["e".toList] else []

/-- A host on which the file `D/e` may not be read: its stream fails to open. -/
def sealedFaults : Faults where
  status_throws _ := false
  size_throws _ := false
  iter_throws _ := false
  open_fails p := p == "D/e".toList

/-- A file name of 255 bytes that spells the number `i` in the letters `a` and `b`. -/
def longName (i : Nat) : List Char :=
  (List.range 255).map (fun k => if i.testBit k then 'b' else 'a')

/-- Document root `D` holding 4100000 regular files with names of 255 bytes and
nothing else. -/
def crowdedFS : FS where
  is_directory p := p == "D".toList || p == "D/".toList
  is_regular_file p := "D/".toList.isPrefixOf p && p.length == 257
  file_size _ := 0
  contents _ := []
  entries p := if p == "D/".toList then (List.range 4100000).map longName else []

/-- A directory `D/` whose only entry is a regular file named `<li>`. -/
def tagFS : FS where
  is_directory p := p == "D/".toList
  is_regular_file p := p == "D//<li>".toList
  file_size _ := 0
  contents _ := []
  entries p := if p == "D/".toList then ["<li>".toList] else []

/-! ## The matcher against the declarative reading of patterns -/

theorem starGo_sound (p : Char → Bool) (k : List Char → Option (List Char)) :
    ∀ (s m : List Char), starGo p k s = some m →
      ∃ run t m1, s = run ++ t ∧ (∀ c ∈ run, p c = true) ∧ k t = some m1 ∧ m = run ++ m1 := by
  intro s
  induction s with
  | nil =>
    intro m h
    exact ⟨[], [], m, rfl, by simp, by simpa [starGo] using h, rfl⟩
  | cons c cs ih =>
    intro m h
    by_cases hp : p c = true
    · cases hgo : starGo p k cs with
      | none =>
        simp [starGo, hp, hgo] at h
        exact ⟨[], c :: cs, m, rfl, by simp, h, rfl⟩
      | some m2 =>
        simp [starGo, hp, hgo] at h
        obtain ⟨run, t, m1, hs, hrun, hk, hm⟩ := ih m2 hgo
        refine ⟨c :: run, t, m1, by simp [hs], ?_, hk, by simp [← h, hm]⟩
        intro d hd
        rcases List.mem_cons.mp hd with rfl | hd
        · exact hp
        · exact hrun d hd
    · simp [starGo, hp] at h
      exact ⟨[], c :: cs, m, rfl, by simp, h, rfl⟩

theorem starGo_of_cont (p : Char → Bool) (k : List Char → Option (List Char))
    (s : List Char) (h : (k s).isSome = true) : (starGo p k s).isSome = true := by
  cases s with
  | nil => simpa [starGo] using h
  | cons c cs =>
    by_cases hp : p c = true
    · cases hgo : starGo p k cs with
      | none => simpa [starGo, hp, hgo] using h
      | some m2 => simp [starGo, hp, hgo]
    · simpa [starGo, hp] using h

theorem starGo_complete (p : Char → Bool) (k : List Char → Option (List Char)) :
    ∀ (run t : List Char), (∀ c ∈ run, p c = true) → (k t).isSome = true →
      (starGo p k (run ++ t)).isSome = true := by
  intro run
  induction run with
  | nil => intro t _ hk; exact starGo_of_cont p k t hk
  | cons c run ih =>
    intro t hrun hk
    have hp : p c = true := hrun c (List.mem_cons_self c run)
    have h2 := ih t (fun d hd => hrun d (List.mem_cons_of_mem c hd)) hk
    obtain ⟨m2, hm2⟩ := Option.isSome_iff_exists.mp h2
    simp [starGo, hp, hm2]

/-- A greedy star that meets the end of its run takes the whole run. -/
theorem starGo_greedy (p : Char → Bool) (k : List Char → Option (List Char)) :
    ∀ (run t m : List Char), (∀ c ∈ run, p c = true) → (∀ c ∈ t.head?, p c = false) →
      k t = some m → starGo p k (run ++ t) = some (run ++ m) := by
  intro run
  induction run with
  | nil =>
    intro t m _ ht hk
    cases t with
    | nil => simpa [starGo] using hk
    | cons c cs =>
      have hc : p c = false := ht c (by simp)
      simpa [starGo, hc] using hk
  | cons c run ih =>
    intro t m hrun ht hk
    have hp : p c = true := hrun c (List.mem_cons_self c run)
    have h2 := ih t m (fun d hd => hrun d (List.mem_cons_of_mem c hd)) ht hk
    simp [starGo, hp, h2]

theorem matchHere_sound :
    ∀ (pat : List Atom) (s m : List Char), matchHere pat s = some m →
      Matches pat m ∧ ∃ post, s = m ++ post := by
  intro pat
  induction pat with
  | nil =>
    intro s m h
    simp [matchHere] at h
    subst h
    exact ⟨rfl, s, rfl⟩
  | cons a rest ih =>
    intro s m h
    cases a with
    | one p =>
      cases s with
      | nil => simp [matchHere] at h
      | cons c cs =>
        by_cases hp : p c = true
        · simp [matchHere, hp] at h
          obtain ⟨m1, hm1, rfl⟩ := h
          obtain ⟨hM, post, hpost⟩ := ih cs m1 hm1
          exact ⟨⟨c, m1, rfl, hp, hM⟩, post, by simp [hpost]⟩
        · simp [matchHere, hp] at h
    | star p =>
      simp only [matchHere] at h
      obtain ⟨run, t, m1, hs, hrun, hk, hm⟩ := starGo_sound p _ s m h
      obtain ⟨hM, post, hpost⟩ := ih t m1 hk
      exact ⟨⟨run, m1, hm, hrun, hM⟩, post, by simp [hs, hm, hpost]⟩

theorem matchHere_complete :
    ∀ (pat : List Atom) (m post : List Char), Matches pat m →
      (matchHere pat (m ++ post)).isSome = true := by
  intro pat
  induction pat with
  | nil => intro m post _; simp [matchHere]
  | cons a rest ih =>
    intro m post hM
    cases a with
    | one p =>
      obtain ⟨c, m1, rfl, hp, hM1⟩ := hM
      have h2 := ih m1 post hM1
      obtain ⟨m2, hm2⟩ := Option.isSome_iff_exists.mp h2
      simp [matchHere, hp, hm2]
    | star p =>
      obtain ⟨run, m1, rfl, hrun, hM1⟩ := hM
      simp only [matchHere, List.append_assoc]
      exact starGo_complete p _ run (m1 ++ post) hrun (ih m1 post hM1)

theorem regex_search_sound (pat : List Atom) :
    ∀ (s m : List Char), regex_search pat s = some m →
      Matches pat m ∧ ∃ pre post, s = pre ++ m ++ post := by
  intro s
  induction s with
  | nil =>
    intro m h
    simp only [regex_search] at h
    obtain ⟨hM, post, hpost⟩ := matchHere_sound pat [] m h
    exact ⟨hM, [], post, by simpa using hpost⟩
  | cons c cs ih =>
    intro m h
    cases hh : matchHere pat (c :: cs) with
    | some m2 =>
      simp [regex_search, hh] at h
      subst h
      obtain ⟨hM, post, hpost⟩ := matchHere_sound pat (c :: cs) m2 hh
      exact ⟨hM, [], post, by simpa using hpost⟩
    | none =>
      simp [regex_search, hh] at h
      obtain ⟨hM, pre, post, hs⟩ := ih m h
      exact ⟨hM, c :: pre, post, by simp [hs]⟩

theorem regex_search_complete (pat : List Atom) :
    ∀ (pre m post : List Char), Matches pat m →
      (regex_search pat (pre ++ m ++ post)).isSome = true := by
  intro pre
  induction pre with
  | nil =>
    intro m post hM
    have h := matchHere_complete pat m post hM
    cases hs : m ++ post with
    | nil => rw [hs] at h; simpa [regex_search, hs] using h
    | cons c cs =>
      rw [hs] at h
      obtain ⟨m2, hm2⟩ := Option.isSome_iff_exists.mp h
      simp [regex_search, hs, hm2]
  | cons c pre ih =>
    intro m post hM
    have h2 := ih m post hM
    simp only [List.cons_append, regex_search]
    cases hh : matchHere pat (c :: (pre ++ m ++ post)) with
    | some m2 => simp
    | none => simpa using h2

/-- The texts matched by the request pattern. -/
theorem matches_format (m : List Char) :
    Matches format m ↔
      ∃ w1 path w2 d1 d2,
        m = "GET".toList ++ [w1] ++ path ++ [w2] ++ "HTTP/".toList ++ [d1, '.', d2] ∧
        isSpace w1 = true ∧ (∀ c ∈ path, isPathChar c = true) ∧ isSpace w2 = true ∧
        isDigit d1 = true ∧ isDigit d2 = true := by
  constructor
  · intro h
    simp only [format, lit, String.toList, List.map, List.cons_append, List.nil_append,
      Matches, beq_iff_eq] at h
    obtain ⟨_, _, rfl, rfl, _, _, rfl, rfl, _, _, rfl, rfl, w1, _, rfl, hw1, path, _, rfl,
      hpath, w2, _, rfl, hw2, _, _, rfl, rfl, _, _, rfl, rfl, _, _, rfl, rfl, _, _, rfl, rfl,
      _, _, rfl, rfl, d1, _, rfl, hd1, _, _, rfl, rfl, d2, _, rfl, hd2, rfl⟩ := h
    exact ⟨w1, path, w2, d1, d2, by simp, hw1, hpath, hw2, hd1, hd2⟩
  · rintro ⟨w1, path, w2, d1, d2, rfl, hw1, hpath, hw2, hd1, hd2⟩
    simp only [format, lit, String.toList, List.map, List.cons_append, List.nil_append,
      Matches, beq_iff_eq]
    exact ⟨_, _, rfl, rfl, _, _, rfl, rfl, _, _, rfl, rfl, w1, _, rfl, hw1, path, _,
      by simp, hpath, w2, _, rfl, hw2, _, _, rfl, rfl, _, _, rfl, rfl, _, _, rfl, rfl,
      _, _, rfl, rfl, _, _, rfl, rfl, d1, _, rfl, hd1, _, _, rfl, rfl, d2, _, rfl, hd2, rfl⟩

theorem matches_verFormat (v : List Char) :
    Matches verFormat v ↔
      ∃ d1 d2, v = "HTTP/".toList ++ [d1, '.', d2] ∧ isDigit d1 = true ∧ isDigit d2 = true := by
  constructor
  · intro h
    simp only [verFormat, lit, String.toList, List.map, List.cons_append, List.nil_append,
      Matches, beq_iff_eq] at h
    obtain ⟨_, _, rfl, rfl, _, _, rfl, rfl, _, _, rfl, rfl, _, _, rfl, rfl,
      _, _, rfl, rfl, d1, _, rfl, hd1, _, _, rfl, rfl, d2, _, rfl, hd2, rfl⟩ := h
    exact ⟨d1, d2, by simp, hd1, hd2⟩
  · rintro ⟨d1, d2, rfl, hd1, hd2⟩
    simp only [verFormat, lit, String.toList, List.map, List.cons_append, List.nil_append,
      Matches, beq_iff_eq]
    exact ⟨_, _, rfl, rfl, _, _, rfl, rfl, _, _, rfl, rfl, _, _, rfl, rfl,
      _, _, rfl, rfl, d1, _, rfl, hd1, _, _, rfl, rfl, d2, _, rfl, hd2, rfl⟩

theorem matches_objFormat (o : List Char) :
    Matches objFormat o ↔ ∃ run, o = '/' :: run ∧ ∀ c ∈ run, isPathChar c = true := by
  constructor
  · intro h
    simp only [objFormat, Matches, beq_iff_eq] at h
    obtain ⟨_, _, rfl, rfl, run, _, rfl, hrun, rfl⟩ := h
    exact ⟨run, by simp, hrun⟩
  · rintro ⟨run, rfl, hrun⟩
    simp only [objFormat, Matches, beq_iff_eq]
    exact ⟨_, _, rfl, rfl, run, _, by simp, hrun, rfl⟩

/-- The request pattern is found exactly in the requests holding a request line
with whitespace separators. -/
theorem regex_search_format_isSome (r : List Char) :
    (regex_search format r).isSome = true ↔ HasRequestLine r := by
  constructor
  · intro h
    obtain ⟨m, hm⟩ := Option.isSome_iff_exists.mp h
    obtain ⟨hM, pre, post, hs⟩ := regex_search_sound format r m hm
    obtain ⟨w1, path, w2, d1, d2, rfl, h1, h2, h3, h4, h5⟩ := (matches_format m).mp hM
    exact ⟨pre, w1, path, w2, d1, d2, post, hs, h1, h2, h3, h4, h5⟩
  · rintro ⟨pre, w1, path, w2, d1, d2, post, rfl, h1, h2, h3, h4, h5⟩
    exact regex_search_complete format pre _ post
      ((matches_format _).mpr ⟨w1, path, w2, d1, d2, rfl, h1, h2, h3, h4, h5⟩)

/-- The version search succeeds on every matched request line, with a token
of the form `HTTP/d.d`. -/
theorem getVer_of_match (r m : List Char) (h : regex_search format r = some m) :
    ∃ d1 d2, getVer m = "HTTP/".toList ++ [d1, '.', d2] ∧
      isDigit d1 = true ∧ isDigit d2 = true := by
  obtain ⟨hM, -⟩ := regex_search_sound format r m h
  obtain ⟨w1, path, w2, d1, d2, rfl, -, -, -, h4, h5⟩ := (matches_format m).mp hM
  have hc := regex_search_complete verFormat ("GET".toList ++ [w1] ++ path ++ [w2])
    ("HTTP/".toList ++ [d1, '.', d2]) []
    ((matches_verFormat _).mpr ⟨d1, d2, rfl, h4, h5⟩)
  simp only [List.append_nil] at hc
  obtain ⟨v, hv⟩ := Option.isSome_iff_exists.mp hc
  obtain ⟨hV, -⟩ := regex_search_sound verFormat _ v hv
  obtain ⟨e1, e2, rfl, he1, he2⟩ := (matches_verFormat v).mp hV
  refine ⟨e1, e2, ?_, he1, he2⟩
  simp only [getVer, regexCheck]
  simp only [List.append_assoc] at hv ⊢
  rw [hv]

/-- The object search succeeds on every matched request line, with a text
that starts with `/` and continues with path characters. -/
theorem getObj_of_match (r m : List Char) (h : regex_search format r = some m) :
    ∃ run, getObj m = '/' :: run ∧ ∀ c ∈ run, isPathChar c = true := by
  obtain ⟨hM, -⟩ := regex_search_sound format r m h
  obtain ⟨w1, path, w2, d1, d2, rfl, -, -, -, -, -⟩ := (matches_format m).mp hM
  have hc := regex_search_complete objFormat ("GET".toList ++ [w1] ++ path ++ [w2] ++ "HTTP".toList)
    ['/'] [d1, '.', d2]
    ((matches_objFormat _).mpr ⟨[], rfl, by simp⟩)
  obtain ⟨o, ho⟩ := Option.isSome_iff_exists.mp hc
  obtain ⟨hO, -⟩ := regex_search_sound objFormat _ o ho
  obtain ⟨run, rfl, hrun⟩ := (matches_objFormat o).mp hO
  refine ⟨run, ?_, hrun⟩
  simp only [getObj, regexCheck]
  have e : "GET".toList ++ [w1] ++ path ++ [w2] ++ "HTTP/".toList ++ [d1, '.', d2] =
      "GET".toList ++ [w1] ++ path ++ [w2] ++ "HTTP".toList ++ ['/'] ++ [d1, '.', d2] := by
    simp
  rw [e, ho]

/-- Without a match the handler sends the 400 response (with the version text
`empty`, the sentinel of the failed version search). -/
theorem handleClientCall_of_no_match (fs : FS) (rootDir r : List Char)
    (h : regex_search format r = none) :
    handleClientCall fs rootDir r = Call.http400 emptyTag := by
  have hv : getVer emptyTag = emptyTag := by decide
  simp [handleClientCall, regexCheck, h, hv]

/-- With a match the handler takes the resolving branch. -/
theorem handleClientCall_of_match (fs : FS) (rootDir r m : List Char)
    (h : regex_search format r = some m) :
    handleClientCall fs rootDir r =
      if checkDir fs (rootDir ++ getObj m) && (rootDir ++ getObj m).getLast? == some '/' then
        if checkFile fs (rootDir ++ getObj m ++ "index.html".toList) then
          Call.http200 (getVer m) (rootDir ++ getObj m ++ "index.html".toList)
        else Call.index200 (rootDir ++ getObj m) (getVer m)
      else if checkFile fs (rootDir ++ getObj m) then Call.http200 (getVer m) (rootDir ++ getObj m)
      else Call.http404 (getVer m) := by
  obtain ⟨hM, -⟩ := regex_search_sound format r m h
  obtain ⟨w1, path, w2, d1, d2, hm, -⟩ := (matches_format m).mp hM
  obtain ⟨e1, e2, hv, -⟩ := getVer_of_match r m h
  obtain ⟨run, ho, -⟩ := getObj_of_match r m h
  have h1 : (m == emptyTag) = false := by
    rw [hm]; simp [emptyTag]
  have h2 : (getVer m == emptyTag) = false := by
    rw [hv]; simp [emptyTag]
  have h3 : (getObj m == emptyTag) = false := by
    rw [ho]; simp [emptyTag]
  simp only [handleClientCall, regexCheck, h, h1, h2, h3, Bool.or_false, Bool.false_eq_true,
    if_false]

/-- A request is answered 200 or 404 exactly when the request pattern is found. -/
theorem status_ok_iff_match (fs : FS) (rootDir r : List Char) :
    ((handleClientCall fs rootDir r).status = 200 ∨ (handleClientCall fs rootDir r).status = 404)
      ↔ (regex_search format r).isSome = true := by
  cases h : regex_search format r with
  | none => simp [handleClientCall_of_no_match fs rootDir r h, Call.status]
  | some m =>
    rw [handleClientCall_of_match fs rootDir r m h]
    simp only [Option.isSome_some, iff_true]
    split_ifs <;> simp [Call.status]

/-- With a match the handler's call is the resolution table at the extracted
target and version. -/
theorem handleClientCall_eq_table (fs : FS) (rootDir r m : List Char)
    (h : regex_search format r = some m) :
    handleClientCall fs rootDir r =
      resolutionTable fs (rootDir ++ getObj m) (getObj m) (getVer m) := by
  obtain ⟨run, ho, -⟩ := getObj_of_match r m h
  rw [handleClientCall_of_match fs rootDir r m h]
  have hl : (rootDir ++ getObj m).getLast? = (getObj m).getLast? := by
    rw [ho, List.getLast?_append]
    simp [List.getLast?_cons_cons, List.getLast?_eq_getLast, Option.or]
  simp only [resolutionTable, checkDir, checkFile, hl, Bool.and_eq_true, beq_iff_eq]

/-! ## C1: which requests are well-formed -/

/-- C1, as stated, fails: the request `GET<TAB>/<TAB>HTTP/1.1` is treated as
well-formed (it is answered 404 on a filesystem without files) although it
holds no request line with single space characters as separators. -/
theorem C1_tab_separated_request_is_accepted :
    (handleClientCall noFiles "WWW".toList "GET\t/\tHTTP/1.1".toList).status = 404 ∧
    ¬ HasRequestLineSP "GET\t/\tHTTP/1.1".toList := by
  refine ⟨by decide, ?_⟩
  rintro ⟨pre, path, d1, d2, post, h, -⟩
  have hmem : ' ' ∈ "GET\t/\tHTTP/1.1".toList := by
    rw [h]
    simp
  revert hmem
  decide

/-- C1, amended: the handler treats a request as well-formed (answers 200 or
404) if and only if the received bytes contain `GET`, one whitespace character
of class `\s`, a possibly empty run of characters of `[A-Za-z0-9_\-./]`, one
whitespace character, `HTTP/`, a digit, `.`, a digit; and it sends the 400
response exactly for every other byte string, the empty read included. -/
theorem C1_wellformed_iff_request_line (fs : FS) (rootDir r : List Char) :
    (((handleClientCall fs rootDir r).status = 200 ∨
        (handleClientCall fs rootDir r).status = 404) ↔ HasRequestLine r) ∧
    (handleClientCall fs rootDir r = Call.http400 emptyTag ↔ ¬ HasRequestLine r) := by
  have key := status_ok_iff_match fs rootDir r
  have hform := regex_search_format_isSome r
  refine ⟨key.trans hform, ?_⟩
  constructor
  · intro h400 hline
    have := (key.trans hform).mpr hline
    rw [h400] at this
    simp [Call.status] at this
  · intro hline
    cases h : regex_search format r with
    | none => exact handleClientCall_of_no_match fs rootDir r h
    | some m =>
      exact absurd (hform.mp (by simp [h])) hline

/-! ## C2: the resolution table -/

/-- C2: for every well-formed request (one not answered 400), with target `t`
and version `v` extracted from the checked request and `P` the document root
followed by `t`, the handler's call is the one the resolution table gives; and
when directories and regular files are mutually exclusive, a directory target
that does not end in `/` is answered 404. -/
theorem C2_resolution_table (fs : FS) (rootDir r : List Char)
    (hwf : (handleClientCall fs rootDir r).status ≠ 400)
    (hexcl : ∀ p, ¬ (fs.is_directory p = true ∧ fs.is_regular_file p = true)) :
    handleClientCall fs rootDir r =
      resolutionTable fs (rootDir ++ getObj (regexCheck r format))
        (getObj (regexCheck r format)) (getVer (regexCheck r format)) ∧
    (fs.is_directory (rootDir ++ getObj (regexCheck r format)) = true →
      (getObj (regexCheck r format)).getLast? ≠ some '/' →
      handleClientCall fs rootDir r = Call.http404 (getVer (regexCheck r format))) := by
  cases h : regex_search format r with
  | none =>
    rw [handleClientCall_of_no_match fs rootDir r h] at hwf
    exact absurd rfl hwf
  | some m =>
    have hm : regexCheck r format = m := by simp [regexCheck, h]
    have htab := handleClientCall_eq_table fs rootDir r m h
    rw [hm]
    refine ⟨htab, ?_⟩
    intro hdir hlast
    have hfile : ¬ fs.is_regular_file (rootDir ++ getObj m) = true :=
      fun hf => hexcl _ ⟨hdir, hf⟩
    rw [htab]
    simp [resolutionTable, hlast, hfile]

/-- C2 at work: in the document root `WWW`, the directory target `/sub`
without a trailing `/` is answered 404. -/
theorem C2_resolution_table_witness :
    (handleClientCall wwwFS "WWW".toList "GET /sub HTTP/1.1\r\n\r\n".toList).status ≠ 400 ∧
    handleClientCall wwwFS "WWW".toList "GET /sub HTTP/1.1\r\n\r\n".toList =
      Call.http404 "HTTP/1.1".toList := by
  have hexcl : ∀ p, ¬ (wwwFS.is_directory p = true ∧ wwwFS.is_regular_file p = true) := by
    rintro p ⟨h1, h2⟩
    simp only [wwwFS, Bool.or_eq_true, beq_iff_eq] at h1 h2
    rcases h2 with rfl | rfl <;> revert h1 <;> decide
  have hwf : (handleClientCall wwwFS "WWW".toList
      "GET /sub HTTP/1.1\r\n\r\n".toList).status ≠ 400 := by decide
  refine ⟨hwf, ?_⟩
  have h := (C2_resolution_table wwwFS "WWW".toList "GET /sub HTTP/1.1\r\n\r\n".toList
    hwf hexcl).2 (by decide) (by decide)
  rw [h]
  decide

/-! ## C3: the dispatch queue -/

theorem queueInv_start (B : Int) (hB : 1 ≤ B) : QueueInv B (Trace.start B) := by
  refine ⟨rfl, ?_, ?_, rfl, rfl⟩
  · exact le_refl 0
  · show (0 : Int) ≤ B
    omega

theorem queueInv_step (B : Int) (t t1 : Trace) (op : Op) (hinv : QueueInv B t)
    (hstep : t.step op = some t1) : QueueInv B t1 := by
  obtain ⟨hcap, h0, hle, hlen, hhist⟩ := hinv
  cases op with
  | put x =>
    by_cases hfull : t.buf.count = t.buf.capacity
    · simp [Trace.step, hfull] at hstep
    · simp only [Trace.step, beq_iff_eq, hfull, if_false, Option.some.injEq] at hstep
      subst hstep
      refine ⟨hcap, ?_, ?_, ?_, ?_⟩
      · show 0 ≤ t.buf.count + 1
        omega
      · show t.buf.count + 1 ≤ t.buf.capacity
        omega
      · show ((t.buf.buffer ++ [x]).length : Int) = t.buf.count + 1
        simp [hlen]
      · show t.puts ++ [x] = t.gets ++ (t.buf.buffer ++ [x])
        simp [hhist]
  | get =>
    by_cases hempty : t.buf.count = 0
    · simp [Trace.step, hempty] at hstep
    · cases hbuf : t.buf.buffer with
      | nil =>
        rw [hbuf] at hlen
        simp at hlen
        exact absurd hlen.symm hempty
      | cons item rest =>
        simp only [Trace.step, beq_iff_eq, hempty, if_false, getItem, hbuf,
          Option.some.injEq] at hstep
        subst hstep
        rw [hbuf] at hlen hhist
        simp only [List.length_cons, Nat.cast_add, Nat.cast_one] at hlen
        refine ⟨hcap, ?_, ?_, ?_, ?_⟩
        · show 0 ≤ t.buf.count - 1
          omega
        · show t.buf.count - 1 ≤ t.buf.capacity
          omega
        · show (rest.length : Int) = t.buf.count - 1
          omega
        · show t.puts = t.gets ++ [item] ++ rest
          simp [hhist]

theorem queueInv_exec (B : Int) :
    ∀ (ops : List Op) (t t1 : Trace), QueueInv B t → t.exec ops = some t1 → QueueInv B t1 := by
  intro ops
  induction ops with
  | nil =>
    intro t t1 hinv h
    simp only [Trace.exec, Option.some.injEq] at h
    exact h ▸ hinv
  | cons op ops ih =>
    intro t t1 hinv h
    cases hs : t.step op with
    | none => simp [Trace.exec, hs] at h
    | some t2 =>
      simp only [Trace.exec, hs] at h
      exact ih t2 t1 (queueInv_step B t t2 op hinv hs) h

/-- C3: in every state reached from the empty queue of capacity `B >= 1` by
an interleaving of enabled `putItem` and `getItem` steps, `0 <= count <=
capacity`, the items returned so far are a prefix of the items put so far, the
items put and not yet returned are exactly the queue's content in order (none
dropped, duplicated or reordered), and a `getItem` that is enabled has a
defined result. -/
theorem C3_queue_bounded_fifo (B : Int) (ops : List Op) (t : Trace) (hB : 1 ≤ B)
    (hrun : (Trace.start B).exec ops = some t) :
    (0 ≤ t.buf.count ∧ t.buf.count ≤ t.buf.capacity) ∧
    t.gets <+: t.puts ∧
    t.puts = t.gets ++ t.buf.buffer ∧
    (t.buf.count ≠ 0 → (getItem t.buf).isSome = true) := by
  obtain ⟨-, h0, hle, hlen, hhist⟩ :=
    queueInv_exec B ops (Trace.start B) t (queueInv_start B hB) hrun
  refine ⟨⟨h0, hle⟩, ⟨t.buf.buffer, hhist.symm⟩, hhist, ?_⟩
  intro hne
  cases hbuf : t.buf.buffer with
  | nil =>
    rw [hbuf] at hlen
    simp at hlen
    exact absurd hlen.symm hne
  | cons item rest => simp [getItem, hbuf]

/-- C3 at work: capacity 2, run `put 7, put 8, get, put 9, get`. -/
theorem C3_queue_bounded_fifo_witness :
    (1 : Int) ≤ 2 ∧
    (Trace.start 2).exec [Op.put 7, Op.put 8, Op.get, Op.put 9, Op.get] =
      some ⟨⟨2, 1, 1, 0, [9]⟩, [7, 8, 9], [7, 8]⟩ ∧
    ([7, 8] : List Int) <+: [7, 8, 9] :=
  ⟨by decide, by decide,
    (C3_queue_bounded_fifo 2 [Op.put 7, Op.put 8, Op.get, Op.put 9, Op.get]
      ⟨⟨2, 1, 1, 0, [9]⟩, [7, 8, 9], [7, 8]⟩ (by decide) (by decide)).2.1⟩

/-! ## The send loop -/

theorem toInt32_of_lt (n : Nat) (h : n < 2 ^ 31) : toInt32 n = (n : Int) := by
  unfold toInt32
  rw [Nat.mod_eq_of_lt (by omega)]
  push_cast
  ring

theorem sendDataLoop_done (send : Send) (data : List Char) (len : Nat) (conv : Int)
    (fuel : Nat) (num : Int) (s : Sock) (h : conv ≤ num) :
    sendDataLoop send data len conv fuel num s = (Flow.returned, s) := by
  have h2 : ¬ num < conv := not_lt.mpr h
  cases fuel <;> simp [sendDataLoop, h2]

theorem sendDataLoop_step (send : Send) (data : List Char) (len : Nat) (conv : Int)
    (fuel : Nat) (num : Int) (s : Sock) (h1 : num < conv)
    (h2 : send s.sends len ≠ -1) (h3 : send s.sends len ≠ 0) :
    sendDataLoop send data len conv (fuel + 1) num s =
      sendDataLoop send data len conv fuel (num + send s.sends len)
        ⟨s.wire ++ data.take (send s.sends len).toNat, s.sends + 1, s.closes⟩ := by
  simp [sendDataLoop, h1, h2, h3]

/-- A buffer whose length fits an `int`, sent by a primitive that transmits
whole buffers, arrives on the wire once. -/
theorem sendData_full (send : Send) (hfull : ∀ i n, send i n = (n : Int))
    (data : List Char) (hlen : data.length < 2 ^ 31) :
    Emits (sendData send data data.length) data := by
  intro s
  unfold sendData
  rw [toInt32_of_lt _ hlen, Int.toNat_natCast]
  cases hn : data.length with
  | zero =>
    have hd : data = [] := List.length_eq_zero.mp hn
    refine ⟨0, ?_⟩
    rw [sendDataLoop_done _ _ _ _ _ _ _ (by simp)]
    simp [hd]
  | succ n =>
    refine ⟨1, ?_⟩
    have hs : send s.sends (n + 1) = ((n + 1 : Nat) : Int) := hfull _ _
    rw [sendDataLoop_step _ _ _ _ _ _ _ (by push_cast; omega) (by rw [hs]; omega)
      (by rw [hs]; omega)]
    rw [sendDataLoop_done _ _ _ _ _ _ _ (by rw [hs]; omega)]
    rw [hs, Int.toNat_natCast, ← hn, List.take_length]

theorem emits_andThen (p q : Proc) (a b : List Char) (hp : Emits p a) (hq : Emits q b) :
    Emits (andThen p q) (a ++ b) := by
  intro s
  obtain ⟨k1, h1⟩ := hp s
  obtain ⟨k2, h2⟩ := hq ⟨s.wire ++ a, s.sends + k1, s.closes⟩
  refine ⟨k1 + k2, ?_⟩
  simp only [andThen, h1, h2]
  simp [Nat.add_assoc]

theorem sendObjLoop_succ (send : Send) (fuel : Nat) (unread : List Char) :
    sendObjLoop send (fuel + 1) unread =
      andThen (sendData send (unread.take buffer_size) (unread.take buffer_size).length)
        (if (unread.take buffer_size).length < buffer_size then fun s1 => (Flow.returned, s1)
         else sendObjLoop send fuel (unread.drop buffer_size)) := by
  rw [sendObjLoop]

theorem emits_nil_skip : Emits (fun s1 => (Flow.returned, s1)) [] := by
  intro s
  exact ⟨0, by simp⟩

theorem sendObjLoop_full (send : Send) (hfull : ∀ i n, send i n = (n : Int)) :
    ∀ (fuel : Nat) (unread : List Char), unread.length / buffer_size + 1 ≤ fuel →
      Emits (sendObjLoop send fuel unread) unread := by
  intro fuel
  induction fuel with
  | zero => intro unread h; exact absurd h (Nat.not_succ_le_zero _)
  | succ fuel ih =>
    intro unread h
    have hbs : buffer_size = 4098 := rfl
    have hchunk : (unread.take buffer_size).length < 2 ^ 31 := by
      have : (unread.take buffer_size).length ≤ buffer_size := List.length_take_le _ _
      omega
    have h1 := sendData_full send hfull (unread.take buffer_size) hchunk
    rw [sendObjLoop_succ]
    by_cases hshort : (unread.take buffer_size).length < buffer_size
    · have hall : unread.take buffer_size = unread := by
        apply List.take_of_length_le
        rw [List.length_take] at hshort
        omega
      rw [if_pos hshort]
      have h2 := emits_andThen _ _ _ _ h1 emits_nil_skip
      rw [List.append_nil, hall] at h2
      rw [hall]
      exact h2
    · have hge : buffer_size ≤ unread.length := by
        rw [List.length_take] at hshort
        omega
      have hfuel : (unread.drop buffer_size).length / buffer_size + 1 ≤ fuel := by
        rw [List.length_drop]
        have hdiv : unread.length / buffer_size =
            (unread.length - buffer_size) / buffer_size + 1 := by
          rw [Nat.div_eq_sub_div (by omega) hge]
        omega
      rw [if_neg hshort]
      have h2 := emits_andThen _ _ _ _ h1 (ih (unread.drop buffer_size) hfuel)
      rw [List.take_append_drop] at h2
      exact h2

/-! ## C4: short sends -/

/-- C4, evaluated on the code: for the buffer `abcd` and a primitive that
accepts 2 bytes per call (a positive count, at most the 4 bytes requested),
`sendData` hands the primitive the start of the buffer again after the short
send, so the wire carries `abab`, not `abcd`; when the second call accepts all
4 bytes the wire carries the 6 bytes `ababcd`. -/
theorem C4_short_send_restarts_at_buffer_start :
    sendData (fun _ _ => 2) "abcd".toList 4 Sock.fresh =
      (Flow.returned, ⟨"abab".toList, 2, 0⟩) ∧
    sendData (fun i _ => if i = 0 then 2 else 4) "abcd".toList 4 Sock.fresh =
      (Flow.returned, ⟨"ababcd".toList, 2, 0⟩) := by
  constructor <;> decide

/-! ## Whole-buffer sends: what each response puts on the wire -/

theorem to_string_length_le (n : Nat) (h : n < 2 ^ 64) : (to_string n).length ≤ 20 := by
  have h2 : n < 10 ^ 20 := lt_of_lt_of_le h (by norm_num)
  exact Nat.repr_length n 20 (by decide) h2

theorem fileType_length_le (f : List Char) : (fileType f).length ≤ 15 := by
  simp only [fileType]
  split_ifs <;> decide

theorem sendHead_full (fs : FS) (send : Send) (hfull : ∀ i n, send i n = (n : Int))
    (f : List Char) (hmax : fs.file_size f < 2 ^ 64) :
    Emits (sendHead fs send f)
      ("Content-Length: ".toList ++ to_string (fs.file_size f) ++ "\r\n".toList ++
        "Content-Type: ".toList ++ fileType f ++ "\r\n\r\n".toList) := by
  unfold sendHead
  refine sendData_full send hfull _ ?_
  have h1 := to_string_length_le _ hmax
  have h2 := fileType_length_le f
  simp only [List.length_append]
  have e1 : "Content-Length: ".toList.length = 16 := by decide
  have e2 : "\r\n".toList.length = 2 := by decide
  have e3 : "Content-Type: ".toList.length = 14 := by decide
  have e4 : "\r\n\r\n".toList.length = 4 := by decide
  omega

theorem sendObj_full (fs : FS) (send : Send) (hfull : ∀ i n, send i n = (n : Int))
    (f : List Char) :
    Emits (sendObj fs send f) (fs.contents f ++ "\r\n\r\n".toList) := by
  unfold sendObj
  refine emits_andThen _ _ _ _ (sendObjLoop_full send hfull _ _ (le_refl _)) ?_
  refine sendData_full send hfull _ ?_
  have e4 : "\r\n\r\n".toList.length = 4 := by decide
  rw [e4]
  norm_num

theorem sendHTTP200_full (fs : FS) (send : Send) (hfull : ∀ i n, send i n = (n : Int))
    (v f : List Char) (hv : v.length = 8) (hmax : fs.file_size f < 2 ^ 64) :
    Emits (sendHTTP200 fs send v f)
      (v ++ " 200 OK \r\n".toList ++
        (("Content-Length: ".toList ++ to_string (fs.file_size f) ++ "\r\n".toList ++
          "Content-Type: ".toList ++ fileType f ++ "\r\n\r\n".toList) ++
         (fs.contents f ++ "\r\n\r\n".toList))) := by
  unfold sendHTTP200
  refine emits_andThen _ _ _ _ ?_
    (emits_andThen _ _ _ _ (sendHead_full fs send hfull f hmax) (sendObj_full fs send hfull f))
  refine sendData_full send hfull _ ?_
  have e : " 200 OK \r\n".toList.length = 10 := by decide
  simp only [List.length_append, hv, e]
  norm_num

theorem createAndSendIndexAndHTTP200_full (fs : FS) (send : Send)
    (hfull : ∀ i n, send i n = (n : Int)) (d v : List Char) (hv : v.length = 8)
    (hint : (indexHTML fs d).length + 4 < 2 ^ 31) :
    Emits (createAndSendIndexAndHTTP200 fs send d v)
      (v ++ " 200 OK \r\n".toList ++
        (("Content-Length: ".toList ++ to_string (indexHTML fs d).length ++
          "\r\nContent-Type: text/html\r\n\r\n".toList) ++
         (indexHTML fs d ++ "\r\n\r\n".toList))) := by
  unfold createAndSendIndexAndHTTP200
  refine emits_andThen _ _ _ _ ?_ (emits_andThen _ _ _ _ ?_ ?_)
  · refine sendData_full send hfull _ ?_
    have e : " 200 OK \r\n".toList.length = 10 := by decide
    simp only [List.length_append, hv, e]
    norm_num
  · refine sendData_full send hfull _ ?_
    have h1 := to_string_length_le (indexHTML fs d).length (by omega)
    have e1 : "Content-Length: ".toList.length = 16 := by decide
    have e2 : "\r\nContent-Type: text/html\r\n\r\n".toList.length = 29 := by decide
    simp only [List.length_append, e1, e2]
    omega
  · refine sendData_full send hfull _ ?_
    have e4 : "\r\n\r\n".toList.length = 4 := by decide
    simp only [List.length_append, e4]
    exact hint

/-- A response that returns after emitting `data` makes the handler return
with `data` on the wire and the socket closed once. -/
theorem handleClient_of_emits (fs : FS) (send : Send) (rootDir r data : List Char)
    (h : Emits ((handleClientCall fs rootDir r).run fs send) data) (s : Sock) :
    (handleClient fs send rootDir (some r) s).1 = Flow.returned ∧
    (handleClient fs send rootDir (some r) s).2.wire = s.wire ++ data ∧
    (handleClient fs send rootDir (some r) s).2.closes = s.closes + 1 := by
  obtain ⟨k, hk⟩ := h s
  simp [handleClient, andThen, hk, close]

/-- The version passed to a 200 response is a token of eight characters. -/
theorem version_length_of_200 (fs : FS) (rootDir r : List Char) :
    (∀ v f, handleClientCall fs rootDir r = Call.http200 v f → v.length = 8) ∧
    (∀ d v, handleClientCall fs rootDir r = Call.index200 d v → v.length = 8) := by
  cases h : regex_search format r with
  | none =>
    rw [handleClientCall_of_no_match fs rootDir r h]
    exact ⟨fun v f hc => (by cases hc), fun d v hc => (by cases hc)⟩
  | some m =>
    obtain ⟨d1, d2, hv, -⟩ := getVer_of_match r m h
    have hlen : (getVer m).length = 8 := by rw [hv]; rfl
    rw [handleClientCall_of_match fs rootDir r m h]
    constructor
    · intro v f hc
      split_ifs at hc
      all_goals
        cases hc
        exact hlen
    · intro d v hc
      split_ifs at hc
      all_goals
        cases hc
        exact hlen

/-! ## C6: the extracted target -/

theorem matchHere_one_cons (p : Char → Bool) (rest : List Atom) (c : Char) (cs : List Char)
    (h : p c = true) :
    matchHere (Atom.one p :: rest) (c :: cs) = (matchHere rest cs).map (fun m => c :: m) := by
  simp [matchHere, h]

theorem matchHere_one_cons_none (p : Char → Bool) (rest : List Atom) (c : Char)
    (cs : List Char) (h : p c = false) : matchHere (Atom.one p :: rest) (c :: cs) = none := by
  simp [matchHere, h]

theorem matchHere_star (p : Char → Bool) (rest : List Atom) (s : List Char) :
    matchHere (Atom.star p :: rest) s = starGo p (fun t => matchHere rest t) s := by
  simp [matchHere]

theorem regex_search_cons_none (pat : List Atom) (c : Char) (cs : List Char)
    (h : matchHere pat (c :: cs) = none) :
    regex_search pat (c :: cs) = regex_search pat cs := by
  simp [regex_search, h]

theorem regex_search_cons_some (pat : List Atom) (c : Char) (cs m : List Char)
    (h : matchHere pat (c :: cs) = some m) : regex_search pat (c :: cs) = some m := by
  simp [regex_search, h]

/-- The request pattern matched at the start of `GET p HTTP/d.d...`. -/
theorem matchHere_format_request_line (q suffix : List Char) (d1 d2 : Char)
    (hq : ∀ c ∈ q, isPathChar c = true) (hd1 : isDigit d1 = true) (hd2 : isDigit d2 = true) :
    matchHere format ("GET ".toList ++ ('/' :: q) ++ " HTTP/".toList ++ [d1, '.', d2] ++ suffix) =
      some ("GET ".toList ++ ('/' :: q) ++ " HTTP/".toList ++ [d1, '.', d2]) := by
  have hk : matchHere
      (Atom.one isSpace :: (lit "HTTP/" ++
        [Atom.one isDigit, Atom.one (fun d => d == '.'), Atom.one isDigit]))
      (" HTTP/".toList ++ [d1, '.', d2] ++ suffix) = some (" HTTP/".toList ++ [d1, '.', d2]) := by
    have hsp : isSpace ' ' = true := by decide
    simp [lit, matchHere, hsp, hd1, hd2]
  have hrun : ∀ c ∈ '/' :: q, isPathChar c = true := by
    intro c hc
    rcases List.mem_cons.mp hc with rfl | hc
    · decide
    · exact hq c hc
  have hstar := starGo_greedy isPathChar
    (fun t => matchHere (Atom.one isSpace :: (lit "HTTP/" ++
        [Atom.one isDigit, Atom.one (fun d => d == '.'), Atom.one isDigit])) t)
    ('/' :: q) (" HTTP/".toList ++ [d1, '.', d2] ++ suffix) _ hrun
    (by intro c hc; simp at hc; subst hc; decide) hk
  have hsp : isSpace ' ' = true := by decide
  have e : "GET ".toList ++ ('/' :: q) ++ " HTTP/".toList ++ [d1, '.', d2] ++ suffix =
      'G' :: 'E' :: 'T' :: ' ' :: (('/' :: q) ++ (" HTTP/".toList ++ [d1, '.', d2] ++ suffix)) := by
    simp
  have e2 : "GET ".toList ++ ('/' :: q) ++ " HTTP/".toList ++ [d1, '.', d2] =
      'G' :: 'E' :: 'T' :: ' ' :: (('/' :: q) ++ (" HTTP/".toList ++ [d1, '.', d2])) := by
    simp
  have hf : format = Atom.one (fun d => d == 'G') :: Atom.one (fun d => d == 'E') ::
      Atom.one (fun d => d == 'T') :: Atom.one isSpace :: Atom.star isPathChar ::
      Atom.one isSpace :: (lit "HTTP/" ++
        [Atom.one isDigit, Atom.one (fun d => d == '.'), Atom.one isDigit]) := rfl
  rw [e, e2, hf, matchHere_one_cons _ _ _ _ (by decide), matchHere_one_cons _ _ _ _ (by decide),
    matchHere_one_cons _ _ _ _ (by decide), matchHere_one_cons _ _ _ _ hsp, matchHere_star,
    hstar]
  rfl

/-- C6: when the received bytes are `GET `, a path `p`, ` HTTP/`, a digit, `.`,
a digit and any suffix, where `p` begins with `/` and consists of characters of
`[A-Za-z0-9_./\-]`, the checked request is the request line, the target that
`getObj` extracts from it is `p`, and the handler resolves the path made of the
document root followed by `p`. -/
theorem C6_target_is_request_path (fs : FS) (rootDir q suffix : List Char) (d1 d2 : Char)
    (hq : ∀ c ∈ q, isPathChar c = true) (hd1 : isDigit d1 = true) (hd2 : isDigit d2 = true) :
    regexCheck ("GET ".toList ++ ('/' :: q) ++ " HTTP/".toList ++ [d1, '.', d2] ++ suffix) format
      = "GET ".toList ++ ('/' :: q) ++ " HTTP/".toList ++ [d1, '.', d2] ∧
    getObj (regexCheck
        ("GET ".toList ++ ('/' :: q) ++ " HTTP/".toList ++ [d1, '.', d2] ++ suffix) format)
      = '/' :: q ∧
    ∃ v, handleClientCall fs rootDir
        ("GET ".toList ++ ('/' :: q) ++ " HTTP/".toList ++ [d1, '.', d2] ++ suffix) =
      resolutionTable fs (rootDir ++ '/' :: q) ('/' :: q) v := by
  have hm := matchHere_format_request_line q suffix d1 d2 hq hd1 hd2
  have hs : regex_search format
      ("GET ".toList ++ ('/' :: q) ++ " HTTP/".toList ++ [d1, '.', d2] ++ suffix) =
      some ("GET ".toList ++ ('/' :: q) ++ " HTTP/".toList ++ [d1, '.', d2]) := by
    have e : "GET ".toList ++ ('/' :: q) ++ " HTTP/".toList ++ [d1, '.', d2] ++ suffix =
        'G' :: ("ET ".toList ++ ('/' :: q) ++ " HTTP/".toList ++ [d1, '.', d2] ++ suffix) := by
      simp
    rw [e] at hm ⊢
    exact regex_search_cons_some _ _ _ _ hm
  have hcheck : regexCheck
      ("GET ".toList ++ ('/' :: q) ++ " HTTP/".toList ++ [d1, '.', d2] ++ suffix) format =
      "GET ".toList ++ ('/' :: q) ++ " HTTP/".toList ++ [d1, '.', d2] := by
    simp only [regexCheck, hs]
  have hobj : getObj ("GET ".toList ++ ('/' :: q) ++ " HTTP/".toList ++ [d1, '.', d2]) =
      '/' :: q := by
    have hstar := starGo_greedy isPathChar (fun t => matchHere [] t) q
      (" HTTP/".toList ++ [d1, '.', d2]) [] hq
      (by intro c hc; simp at hc; subst hc; decide) (by simp [matchHere])
    have e : "GET ".toList ++ ('/' :: q) ++ " HTTP/".toList ++ [d1, '.', d2] =
        'G' :: 'E' :: 'T' :: ' ' :: '/' :: (q ++ (" HTTP/".toList ++ [d1, '.', d2])) := by
      simp
    have hfound : regex_search objFormat
        ('G' :: 'E' :: 'T' :: ' ' :: '/' :: (q ++ (" HTTP/".toList ++ [d1, '.', d2]))) =
        some ('/' :: q) := by
      unfold objFormat
      rw [regex_search_cons_none _ _ _ (matchHere_one_cons_none _ _ _ _ (by decide)),
        regex_search_cons_none _ _ _ (matchHere_one_cons_none _ _ _ _ (by decide)),
        regex_search_cons_none _ _ _ (matchHere_one_cons_none _ _ _ _ (by decide)),
        regex_search_cons_none _ _ _ (matchHere_one_cons_none _ _ _ _ (by decide))]
      apply regex_search_cons_some
      rw [matchHere_one_cons _ _ _ _ (by decide), matchHere_star, hstar]
      simp
    rw [e]
    simp only [getObj, regexCheck, hfound]
  refine ⟨hcheck, by rw [hcheck, hobj],
    getVer ("GET ".toList ++ ('/' :: q) ++ " HTTP/".toList ++ [d1, '.', d2]), ?_⟩
  rw [handleClientCall_eq_table fs rootDir _ _ hs, hobj]

/-- C6 at work: the request `GET /a.txt HTTP/1.0` followed by a blank line. -/
theorem C6_target_is_request_path_witness :
    (∀ c ∈ "a.txt".toList, isPathChar c = true) ∧ isDigit '1' = true ∧ isDigit '0' = true ∧
    getObj (regexCheck
        ("GET ".toList ++ ('/' :: "a.txt".toList) ++ " HTTP/".toList ++ ['1', '.', '0'] ++
          "\r\n\r\n".toList) format)
      = '/' :: "a.txt".toList :=
  ⟨by decide, by decide, by decide,
    (C6_target_is_request_path noFiles "WWW".toList "a.txt".toList "\r\n\r\n".toList '1' '0'
      (by decide) (by decide) (by decide)).2.1⟩

/-! ## C7 and C8: the version and the target are searched in the whole request line -/

/-- C7, evaluated on the code: the accepted request `GET /HTTP/2.0 HTTP/1.1`
has the protocol version token `HTTP/1.1`, but the version search takes the
leftmost version-like text of the matched line, here inside the path, and the
404 response starts with `HTTP/2.0`. -/
theorem C7_version_taken_from_path :
    regexCheck "GET /HTTP/2.0 HTTP/1.1\r\n\r\n".toList format =
      "GET /HTTP/2.0 HTTP/1.1".toList ∧
    handleClientCall noFiles "WWW".toList "GET /HTTP/2.0 HTTP/1.1\r\n\r\n".toList =
      Call.http404 "HTTP/2.0".toList ∧
    (sendHTTP404 fullSend "HTTP/2.0".toList Sock.fresh).2.wire.take 24 =
      "HTTP/2.0 404 Not Found\r\n".toList := by
  refine ⟨by decide, by decide, by decide⟩

/-- C8, evaluated on the code: the request lines `GET foo HTTP/1.1` and
`GET  HTTP/1.1` (empty path) have no target beginning with `/`, but the target
search finds the `/` of the version token: the request is treated as
well-formed with target `/1.1` and answered 404 (or 200 when the document root
holds a file `1.1`), not 400. -/
theorem C8_path_without_slash_is_accepted :
    getObj (regexCheck "GET foo HTTP/1.1\r\n\r\n".toList format) = "/1.1".toList ∧
    handleClientCall noFiles "WWW".toList "GET foo HTTP/1.1\r\n\r\n".toList =
      Call.http404 "HTTP/1.1".toList ∧
    handleClientCall noFiles "WWW".toList "GET  HTTP/1.1\r\n\r\n".toList =
      Call.http404 "HTTP/1.1".toList := by
  refine ⟨by decide, by decide, by decide⟩

/-! ## C9: closing the socket -/

/-- The choice of the response as a function of what the queries report. -/
theorem host_choice_agrees (bad sl d f1 f2 t1 t2 : Bool) (v P Q : List Char) :
    (if bad = true then some (Call.http400 v)
      else
        match (if t1 = true then none else some d) with
        | none => none
        | some isDir =>
          if (isDir && sl) = true then
            match (if t2 = true then none else some f2) with
            | none => none
            | some true => some (Call.http200 v Q)
            | some false => some (Call.index200 P v)
          else
            match (if t1 = true then none else some f1) with
            | none => none
            | some true => some (Call.http200 v P)
            | some false => some (Call.http404 v)) =
    if t1 = true ∧ bad = false ∨ t2 = true ∧ bad = false ∧ d = true ∧ sl = true then none
    else some (if bad = true then Call.http400 v
      else if (d && sl) = true then
        if f2 = true then Call.http200 v Q else Call.index200 P v
      else if f1 = true then Call.http200 v P else Call.http404 v) := by
  cases bad <;> cases sl <;> cases d <;> cases f1 <;> cases f2 <;> cases t1 <;> cases t2 <;> rfl

/-- The handler's choice on any host: an exception when a query that is
reached throws, and the choice of `handleClientCall` otherwise. -/
theorem host_handleClientCall_eq (fs : FS) (flt : Faults) (rootDir r : List Char) :
    Host.handleClientCall fs flt rootDir r =
      if flt.status_throws (rootDir ++ getObj (regexCheck r format)) = true ∧
          (regexCheck r format == emptyTag || getVer (regexCheck r format) == emptyTag ||
            getObj (regexCheck r format) == emptyTag) = false ∨
        flt.status_throws (rootDir ++ getObj (regexCheck r format) ++ "index.html".toList) = true ∧
          (regexCheck r format == emptyTag || getVer (regexCheck r format) == emptyTag ||
            getObj (regexCheck r format) == emptyTag) = false ∧
          fs.is_directory (rootDir ++ getObj (regexCheck r format)) = true ∧
          ((rootDir ++ getObj (regexCheck r format)).getLast? == some '/') = true
      then none
      else some (handleClientCall fs rootDir r) := by
  simp only [Host.handleClientCall, Host.checkDir, Host.checkFile, handleClientCall, checkDir,
    checkFile]
  exact host_choice_agrees _ _ _ _ _ _ _ _ _ _

/-- Where no query throws before the response is chosen, the choice is the
one of `handleClientCall`. -/
theorem host_handleClientCall_eq_some (fs : FS) (flt : Faults) (rootDir r : List Char)
    (c : Call) (h : Host.handleClientCall fs flt rootDir r = some c) :
    c = handleClientCall fs rootDir r := by
  rw [host_handleClientCall_eq] at h
  split_ifs at h
  exact (Option.some.inj h).symm

theorem host_handleClientCall_clean (fs : FS) (flt : Faults) (rootDir r : List Char)
    (hflt : ∀ p, flt.status_throws p = false) :
    Host.handleClientCall fs flt rootDir r = some (handleClientCall fs rootDir r) := by
  rw [host_handleClientCall_eq, if_neg]
  simp [hflt]

theorem host_run_clean (fs : FS) (flt : Faults) (send : Send) (c : Call)
    (hflt : flt.Clean) : Host.run fs flt send c = c.run fs send := by
  have h1 : ∀ p, flt.status_throws p = false := fun p => (hflt p).1
  have h2 : ∀ p, flt.size_throws p = false := fun p => (hflt p).2.1
  have h3 : ∀ p, flt.iter_throws p = false := fun p => (hflt p).2.2.1
  have h4 : ∀ p, flt.open_fails p = false := fun p => (hflt p).2.2.2
  cases c with
  | http400 v => rfl
  | http404 v => rfl
  | http200 v f =>
    show Host.sendHTTP200 fs flt send v f = sendHTTP200 fs send v f
    simp only [Host.sendHTTP200, sendHTTP200, Host.sendHead, Host.sendObj, h2, h4,
      Bool.false_eq_true, if_false]
  | index200 d v =>
    show Host.createAndSendIndexAndHTTP200 fs flt send d v =
      createAndSendIndexAndHTTP200 fs send d v
    have hany : (fs.entries d).any
        (fun fileName => flt.status_throws (d ++ "/".toList ++ fileName)) = false := by
      rw [List.any_eq_false]
      intro x _
      simp [h1]
    simp only [Host.createAndSendIndexAndHTTP200, createAndSendIndexAndHTTP200, h3, hany,
      Bool.or_self, Bool.false_eq_true, if_false]

theorem indexItems_eq (fs : FS) (d : List Char) :
    ∀ (names : List (List Char)) (acc : List Char),
      indexItems fs d names acc = acc ++ listItems fs d names := by
  intro names
  induction names with
  | nil => intro acc; simp [indexItems, listItems]
  | cons name more ih =>
    intro acc
    simp only [indexItems, listItems, ih, checkDir, listItem, shownName, List.append_assoc]

theorem indexHTML_eq (fs : FS) (d : List Char) :
    indexHTML fs d =
      "<html><body><ul>".toList ++ listItems fs d (fs.entries d) ++
        "</ul></body></html>".toList := by
  simp only [indexHTML, indexItems_eq, List.nil_append]

theorem liTag_eq : liTag = ['<', 'l', 'i', '>'] := rfl

theorem isPrefixOf_li_append_head (x : Char) (a b : List Char)
    (hb : ∀ y ∈ b.head?, y ≠ 'l' ∧ y ≠ 'i' ∧ y ≠ '>') :
    liTag.isPrefixOf (x :: a ++ b) = liTag.isPrefixOf (x :: a) := by
  rw [liTag_eq]
  cases b with
  | nil => simp
  | cons y b1 =>
    obtain ⟨h1, h2, h3⟩ := hb y (by simp)
    rcases a with _ | ⟨p, _ | ⟨q, _ | ⟨r, rest⟩⟩⟩ <;>
      simp [List.isPrefixOf, Ne.symm h1, Ne.symm h2, Ne.symm h3]

theorem isPrefixOf_li_append_last (y x : Char) (a b : List Char)
    (h2 : x ≠ 'l') (h3 : x ≠ 'i') :
    liTag.isPrefixOf (y :: a ++ x :: b) = liTag.isPrefixOf (y :: a ++ [x]) := by
  rw [liTag_eq]
  rcases a with _ | ⟨p, _ | ⟨q, _ | ⟨r, rest⟩⟩⟩ <;>
    simp [List.isPrefixOf, Ne.symm h2, Ne.symm h3]

/-- No occurrence of `<li>` straddles a cut after which the text is empty or
starts with a character other than `l`, `i`, `>`. -/
theorem countOcc_append_head (a b : List Char)
    (hb : ∀ y ∈ b.head?, y ≠ 'l' ∧ y ≠ 'i' ∧ y ≠ '>') :
    countOcc liTag (a ++ b) = countOcc liTag a + countOcc liTag b := by
  induction a with
  | nil => simp [countOcc]
  | cons x a ih =>
    have h := isPrefixOf_li_append_head x a b hb
    simp only [List.cons_append] at h ⊢
    simp only [countOcc, h, ih]
    omega

/-- No occurrence of `<li>` straddles a cut before which the text ends with a
character other than `<`, `l`, `i`. -/
theorem countOcc_append_last (a b : List Char) (x : Char)
    (h1 : x ≠ '<') (h2 : x ≠ 'l') (h3 : x ≠ 'i') :
    countOcc liTag (a ++ x :: b) = countOcc liTag (a ++ [x]) + countOcc liTag b := by
  induction a with
  | nil =>
    have e : liTag.isPrefixOf (x :: b) = false := by
      rw [liTag_eq]; simp [List.isPrefixOf, Ne.symm h1]
    have e2 : liTag.isPrefixOf [x] = false := by
      rw [liTag_eq]; simp [List.isPrefixOf]
    simp [countOcc, e, e2]
  | cons y a ih =>
    have h := isPrefixOf_li_append_last y x a b h2 h3
    simp only [List.cons_append] at h ⊢
    simp only [countOcc, h, ih]
    omega

/-- A list item holds its own `<li>` and twice the occurrences in the name. -/
theorem countOcc_listItem (N : List Char) :
    countOcc liTag (listItem N) = 1 + 2 * countOcc liTag N := by
  have hA : "<li><a href=\"".toList = "<li><a href=".toList ++ ['"'] := rfl
  have hB : "\">".toList = ['"'] ++ ['>'] := rfl
  have hC : "</a></li>".toList = '<' :: "/a></li>".toList := rfl
  have cA : countOcc liTag ("<li><a href=".toList ++ ['"']) = 1 := by decide
  have cB : countOcc liTag (['"'] ++ ['>']) = 0 := by decide
  have cC : countOcc liTag ('<' :: "/a></li>".toList) = 0 := by decide
  have s1 : countOcc liTag ("<li><a href=".toList ++ '"' :: N) = 1 + countOcc liTag N := by
    rw [countOcc_append_last _ _ _ (by decide) (by decide) (by decide), cA]
  have s2 : countOcc liTag (("<li><a href=".toList ++ '"' :: N) ++ (['"'] ++ ['>'])) =
      1 + countOcc liTag N := by
    rw [countOcc_append_head _ _ (by intro y hy; simp at hy; subst hy; decide), s1, cB]
    rfl
  have s3 : countOcc liTag ((("<li><a href=".toList ++ '"' :: N) ++ ['"']) ++ '>' :: N) =
      1 + 2 * countOcc liTag N := by
    rw [countOcc_append_last _ _ _ (by decide) (by decide) (by decide)]
    have e : (("<li><a href=".toList ++ '"' :: N) ++ ['"']) ++ ['>'] =
        ("<li><a href=".toList ++ '"' :: N) ++ (['"'] ++ ['>']) := by simp
    rw [e, s2]
    omega
  have e : listItem N =
      ((("<li><a href=".toList ++ '"' :: N) ++ ['"']) ++ '>' :: N) ++
        ('<' :: "/a></li>".toList) := by
    simp only [listItem, hA, hB, hC, List.append_assoc, List.cons_append, List.nil_append]
  rw [e, countOcc_append_head _ _ (by intro y hy; simp at hy; subst hy; decide), s3, cC]
  rfl

theorem countOcc_shownName (fs : FS) (d name : List Char) :
    countOcc liTag (shownName fs d name) = countOcc liTag name := by
  unfold shownName
  split_ifs
  · have hs : "/".toList = ['/'] := rfl
    rw [hs, countOcc_append_head _ _ (by intro y hy; simp at hy; subst hy; decide)]
    have c0 : countOcc liTag ['/'] = 0 := by decide
    rw [c0]
    rfl
  · rfl

theorem head_listItems_append (fs : FS) (d : List Char) (names : List (List Char)) :
    ∀ y ∈ (listItems fs d names ++ "</ul></body></html>".toList).head?,
      y ≠ 'l' ∧ y ≠ 'i' ∧ y ≠ '>' := by
  intro y hy
  have hy2 : y = '<' := by
    cases names with
    | nil =>
      have e : ([] : List Char) ++ "</ul></body></html>".toList =
          '<' :: "/ul></body></html>".toList := rfl
      rw [listItems, e] at hy
      simpa using hy.symm
    | cons n more =>
      have e : "<li><a href=\"".toList = '<' :: "li><a href=\"".toList := rfl
      simp only [listItems, listItem, e, List.cons_append, List.head?_cons,
        Option.mem_def, Option.some.injEq] at hy
      exact hy.symm
  subst hy2
  decide

theorem countOcc_listItems (fs : FS) (d : List Char) :
    ∀ names : List (List Char), (∀ n ∈ names, countOcc liTag n = 0) →
      countOcc liTag (listItems fs d names ++ "</ul></body></html>".toList) = names.length := by
  intro names
  induction names with
  | nil =>
    intro _
    simp only [listItems, List.nil_append, List.length_nil]
    decide
  | cons n more ih =>
    intro hn
    have h0 : countOcc liTag n = 0 := hn n (List.mem_cons_self n more)
    have hmore := ih (fun m hm => hn m (List.mem_cons_of_mem n hm))
    simp only [listItems, List.append_assoc]
    rw [countOcc_append_head _ _ (head_listItems_append fs d more), countOcc_listItem,
      countOcc_shownName, h0, hmore]
    simp only [List.length_cons]
    omega

/-- C10, as stated, fails in its count: names are copied into the HTML as
they are, so for a directory whose only child is the file named `<li>` the
body contains 3 occurrences of `<li>`, not 1. -/
theorem C10_name_holding_tag_adds_occurrences :
    (tagFS.entries "D/".toList).length = 1 ∧
    indexHTML tagFS "D/".toList =
      "<html><body><ul><li><a href=\"<li>\"><li></a></li></ul></body></html>".toList ∧
    countOcc liTag (indexHTML tagFS "D/".toList) = 3 := by
  refine ⟨by decide, by decide, by decide⟩

/-- C10, amended: for every directory listing, the body built by
`createAndSendIndexAndHTTP200` is `<html><body><ul>`, then for each child in
enumeration order `<li><a href="NAME">NAME</a></li>` where NAME is the child's
name with `/` appended exactly when the child is a directory, then
`</ul></body></html>`; and when no child's name contains `<li>`, the body
contains exactly n occurrences of `<li>`, one per immediate child. -/
theorem C10_index_body_lists_children (fs : FS) (d : List Char) :
    indexHTML fs d =
      "<html><body><ul>".toList ++ listItems fs d (fs.entries d) ++
        "</ul></body></html>".toList ∧
    ((∀ n ∈ fs.entries d, countOcc liTag n = 0) →
      countOcc liTag (indexHTML fs d) = (fs.entries d).length) := by
  refine ⟨indexHTML_eq fs d, ?_⟩
  intro hnames
  rw [indexHTML_eq, List.append_assoc,
    countOcc_append_head _ _ (head_listItems_append fs d (fs.entries d)),
    countOcc_listItems fs d _ hnames]
  have c0 : countOcc liTag "<html><body><ul>".toList = 0 := by decide
  rw [c0]
  omega

/-- C10 at work: the listing of `WWW/` with two files and the directory `sub`. -/
theorem C10_index_body_lists_children_witness :
    (∀ n ∈ wwwFS.entries "WWW/".toList, countOcc liTag n = 0) ∧
    indexHTML wwwFS "WWW/".toList =
      ("<html><body><ul><li><a href=\"index.html\">index.html</a></li>" ++
        "<li><a href=\"a.txt\">a.txt</a></li><li><a href=\"sub/\">sub/</a></li>" ++
        "</ul></body></html>").toList ∧
    countOcc liTag (indexHTML wwwFS "WWW/".toList) = 3 := by
  have h := C10_index_body_lists_children wwwFS "WWW/".toList
  refine ⟨by decide, ?_, ?_⟩
  · rw [h.1]
    decide
  · rw [h.2 (by decide)]
    decide

/-! ## C11: the index of an empty directory -/

/-- The handler's choice for `GET /sub/ HTTP/1.1` when `sub/` is a directory of
the document root without a regular `index.html`: the synthesized index. -/
theorem handleClientCall_sub (fs : FS) (rootDir : List Char)
    (hdir : fs.is_directory (rootDir ++ "/sub/".toList) = true)
    (hnoindex : fs.is_regular_file (rootDir ++ "/sub/".toList ++ "index.html".toList) = false) :
    handleClientCall fs rootDir "GET /sub/ HTTP/1.1\r\n\r\n".toList =
      Call.index200 (rootDir ++ "/sub/".toList) "HTTP/1.1".toList := by
  have hs : regex_search format "GET /sub/ HTTP/1.1\r\n\r\n".toList =
      some "GET /sub/ HTTP/1.1".toList := by decide
  have ho : getObj "GET /sub/ HTTP/1.1".toList = "/sub/".toList := by decide
  have hv : getVer "GET /sub/ HTTP/1.1".toList = "HTTP/1.1".toList := by decide
  have hlast : (rootDir ++ "/sub/".toList).getLast? = some '/' := by
    have e : "/sub/".toList = "/sub".toList ++ ['/'] := rfl
    rw [e, ← List.append_assoc, List.getLast?_append]
    rfl
  rw [handleClientCall_of_match fs rootDir _ _ hs, ho, hv]
  simp only [checkDir, checkFile, hdir, hnoindex, hlast, beq_self_eq_true, Bool.and_self,
    if_true, Bool.false_eq_true, if_false]

/-- The index synthesized for a directory without entries. -/
theorem indexHTML_of_no_entries (fs : FS) (d : List Char) (hempty : fs.entries d = []) :
    indexHTML fs d = "<html><body><ul></ul></body></html>".toList := by
  rw [indexHTML_eq, hempty]
  rfl

/-- C11, as stated, fails in its number: for `GET /sub/ HTTP/1.1` on the
empty directory `WWW/sub/` the body is `<html><body><ul></ul></body></html>`,
which is 35 bytes long, and the header sent advertises 35, not 34. -/
theorem C11_empty_index_advertises_35 :
    indexHTML wwwFS "WWW/sub/".toList = "<html><body><ul></ul></body></html>".toList ∧
    "<html><body><ul></ul></body></html>".toList.length = 35 ∧
    (handleClient wwwFS fullSend "WWW".toList (some "GET /sub/ HTTP/1.1\r\n\r\n".toList)
        Sock.fresh).2.wire =
      ("HTTP/1.1 200 OK \r\nContent-Length: 35\r\nContent-Type: text/html\r\n\r\n" ++
        "<html><body><ul></ul></body></html>\r\n\r\n").toList ∧
    (handleClient wwwFS fullSend "WWW".toList (some "GET /sub/ HTTP/1.1\r\n\r\n".toList)
        Sock.fresh).2.wire ≠
      ("HTTP/1.1 200 OK \r\nContent-Length: 34\r\nContent-Type: text/html\r\n\r\n" ++
        "<html><body><ul></ul></body></html>\r\n\r\n").toList := by
  refine ⟨by decide, by decide, by decide, by decide⟩

/-- C11, amended: for the request `GET /sub/ HTTP/1.1` followed by a blank
line, where the document root followed by `/sub/` is an empty directory (no
entries, hence no regular `index.html`) and every send transmits its whole
buffer, the handler returns after sending the status line `HTTP/1.1 200 OK `
with `\r\n`, the headers `Content-Length: 35` and `Content-Type: text/html`,
the blank line, the body `<html><body><ul></ul></body></html>` and the 4 bytes
`\r\n\r\n`; the advertised length 35 is the length of that body. -/
theorem C11_empty_directory_index_response (fs : FS) (send : Send) (rootDir : List Char)
    (hfull : ∀ i n, send i n = (n : Int))
    (hdir : fs.is_directory (rootDir ++ "/sub/".toList) = true)
    (hnoindex : fs.is_regular_file (rootDir ++ "/sub/".toList ++ "index.html".toList) = false)
    (hempty : fs.entries (rootDir ++ "/sub/".toList) = []) :
    (handleClient fs send rootDir (some "GET /sub/ HTTP/1.1\r\n\r\n".toList) Sock.fresh).1 =
      Flow.returned ∧
    (handleClient fs send rootDir (some "GET /sub/ HTTP/1.1\r\n\r\n".toList) Sock.fresh).2.wire =
      ("HTTP/1.1 200 OK \r\nContent-Length: 35\r\nContent-Type: text/html\r\n\r\n" ++
        "<html><body><ul></ul></body></html>\r\n\r\n").toList ∧
    (indexHTML fs (rootDir ++ "/sub/".toList)).length = 35 := by
  have hcall := handleClientCall_sub fs rootDir hdir hnoindex
  have hbody := indexHTML_of_no_entries fs (rootDir ++ "/sub/".toList) hempty
  have hlen : (indexHTML fs (rootDir ++ "/sub/".toList)).length = 35 := by
    rw [hbody]
    decide
  have hem := createAndSendIndexAndHTTP200_full fs send hfull (rootDir ++ "/sub/".toList)
    "HTTP/1.1".toList (by decide) (by rw [hlen]; norm_num)
  have h := handleClient_of_emits fs send rootDir "GET /sub/ HTTP/1.1\r\n\r\n".toList _
    (by rw [hcall]; exact hem) Sock.fresh
  refine ⟨h.1, ?_, hlen⟩
  rw [h.2.1, hlen, hbody]
  decide

/-- C11 at work: the document root `WWW` with its empty directory `sub`. -/
theorem C11_empty_directory_index_response_witness :
    (∀ i n, fullSend i n = (n : Int)) ∧
    wwwFS.is_directory ("WWW".toList ++ "/sub/".toList) = true ∧
    wwwFS.is_regular_file ("WWW".toList ++ "/sub/".toList ++ "index.html".toList) = false ∧
    wwwFS.entries ("WWW".toList ++ "/sub/".toList) = [] ∧
    (handleClient wwwFS fullSend "WWW".toList (some "GET /sub/ HTTP/1.1\r\n\r\n".toList)
        Sock.fresh).1 = Flow.returned :=
  ⟨fun _ _ => rfl, (by decide), (by decide), (by decide),
    (C11_empty_directory_index_response wwwFS fullSend "WWW".toList (fun _ _ => rfl)
      (by decide) (by decide) (by decide)).1⟩

/-! ## C5: the advertised length and the body -/

theorem toInt32_of_ge (n : Nat) (h1 : 2 ^ 31 ≤ n) (h2 : n < 2 ^ 32) : toInt32 n < 0 := by
  unfold toInt32
  have e : (n + 2 ^ 31) % 2 ^ 32 = n - 2 ^ 31 := by omega
  rw [e]
  omega

/-- A buffer whose length is negative as an `int` is not sent at all: the
send loop is not entered. -/
theorem sendData_of_negative_length (send : Send) (data : List Char) (len : Nat)
    (h : toInt32 len < 0) : Emits (sendData send data len) [] := by
  intro s
  refine ⟨0, ?_⟩
  unfold sendData
  rw [sendDataLoop_done _ _ _ _ _ _ _ (by omega)]
  simp

/-- The index response when the body with its 4 trailing bytes has a length
from 2^31 up to 2^32: status line and header are sent, the body is not. -/
theorem createAndSendIndexAndHTTP200_oversize (fs : FS) (send : Send)
    (hfull : ∀ i n, send i n = (n : Int)) (d v : List Char) (hv : v.length = 8)
    (h1 : 2 ^ 31 ≤ (indexHTML fs d).length + 4) (h2 : (indexHTML fs d).length + 4 < 2 ^ 32) :
    Emits (createAndSendIndexAndHTTP200 fs send d v)
      (v ++ " 200 OK \r\n".toList ++
        (("Content-Length: ".toList ++ to_string (indexHTML fs d).length ++
          "\r\nContent-Type: text/html\r\n\r\n".toList) ++ [])) := by
  unfold createAndSendIndexAndHTTP200
  refine emits_andThen _ _ _ _ ?_ (emits_andThen _ _ _ _ ?_ ?_)
  · refine sendData_full send hfull _ ?_
    have e : " 200 OK \r\n".toList.length = 10 := by decide
    simp only [List.length_append, hv, e]
    norm_num
  · refine sendData_full send hfull _ ?_
    have h3 := to_string_length_le (indexHTML fs d).length (by omega)
    have e1 : "Content-Length: ".toList.length = 16 := by decide
    have e2 : "\r\nContent-Type: text/html\r\n\r\n".toList.length = 29 := by decide
    simp only [List.length_append, e1, e2]
    omega
  · refine sendData_of_negative_length send _ _ (toInt32_of_ge _ ?_ ?_)
    · have e4 : "\r\n\r\n".toList.length = 4 := by decide
      simp only [List.length_append, e4]
      exact h1
    · have e4 : "\r\n\r\n".toList.length = 4 := by decide
      simp only [List.length_append, e4]
      exact h2

theorem listItems_length (fs : FS) (d : List Char) :
    ∀ names : List (List Char),
      (∀ n ∈ names, n.length = 255 ∧ fs.is_directory (d ++ "/".toList ++ n) = false) →
      (listItems fs d names).length = 534 * names.length := by
  intro names
  induction names with
  | nil => intro _; rfl
  | cons n more ih =>
    intro h
    obtain ⟨hn, hdir⟩ := h n (List.mem_cons_self n more)
    have hmore := ih (fun m hm => h m (List.mem_cons_of_mem n hm))
    have e1 : "<li><a href=\"".toList.length = 13 := by decide
    have e2 : "\">".toList.length = 2 := by decide
    have e3 : "</a></li>".toList.length = 9 := by decide
    simp only [listItems, listItem, shownName, hdir, Bool.false_eq_true, if_false,
      List.length_append, List.length_cons, hn, hmore, e1, e2, e3]
    omega

theorem indexHTML_length_of_long_names (fs : FS) (d : List Char)
    (h : ∀ n ∈ fs.entries d, n.length = 255 ∧ fs.is_directory (d ++ "/".toList ++ n) = false) :
    (indexHTML fs d).length = 534 * (fs.entries d).length + 35 := by
  have e1 : "<html><body><ul>".toList.length = 16 := by decide
  have e2 : "</ul></body></html>".toList.length = 19 := by decide
  rw [indexHTML_eq]
  simp only [List.length_append, listItems_length fs d _ h, e1, e2]
  omega

theorem crowdedFS_entries :
    crowdedFS.entries "D/".toList = (List.range 4100000).map longName := by
  simp only [crowdedFS, beq_self_eq_true, if_true]

theorem indexHTML_crowded_length :
    (indexHTML crowdedFS "D/".toList).length = 2189400035 := by
  have hlong : ∀ n ∈ crowdedFS.entries "D/".toList,
      n.length = 255 ∧ crowdedFS.is_directory ("D/".toList ++ "/".toList ++ n) = false := by
    intro n hn
    rw [crowdedFS_entries] at hn
    obtain ⟨i, -, rfl⟩ := List.mem_map.mp hn
    refine ⟨by simp only [longName, List.length_map, List.length_range], ?_⟩
    have e : "D/".toList ++ "/".toList ++ longName i = 'D' :: '/' :: '/' :: longName i := rfl
    have e1 : "D".toList = ['D'] := rfl
    have e2 : "D/".toList = ['D', '/'] := rfl
    rw [e]
    simp only [crowdedFS, e1, e2]
    simp
  rw [indexHTML_length_of_long_names crowdedFS "D/".toList hlong, crowdedFS_entries,
    List.length_map, List.length_range]

/-- A response procedure that returns after emitting `data` makes the handler
on any host return with `data` on the wire and the socket closed once. -/
theorem host_handleClient_of_emits (fs : FS) (flt : Faults) (send : Send)
    (rootDir r data : List Char) (c : Call)
    (hc : Host.handleClientCall fs flt rootDir r = some c)
    (h : Emits (Host.run fs flt send c) data) (s : Sock) :
    (Host.handleClient fs flt send rootDir (some r) s).1 = Flow.returned ∧
    (Host.handleClient fs flt send rootDir (some r) s).2.wire = s.wire ++ data ∧
    (Host.handleClient fs flt send rootDir (some r) s).2.closes = s.closes + 1 := by
  obtain ⟨k, hk⟩ := h s
  simp [Host.handleClient, hc, andThen, hk, close]

/-- C5, as stated, fails. For `GET / HTTP/1.1` on the directory `D/` with
4100000 files whose names have 255 bytes, the index body has 2189400035 bytes;
with its 4 trailing bytes its length is negative as the `int` of the send
loop, so with a primitive that transmits whole buffers the handler sends the
status line and the header advertising 2189400035 and then nothing: no body
and no trailing bytes follow the blank line. And for the empty file `D/e`
whose stream fails to open (size 0, 0 readable bytes), the handler sends the
header advertising 0 and never sends the 4 trailing bytes. -/
theorem C5_oversize_index_body_is_not_sent :
    (indexHTML crowdedFS "D/".toList).length = 2189400035 ∧
    (Host.handleClient crowdedFS noFaults fullSend "D".toList
      (some "GET / HTTP/1.1\r\n\r\n".toList) Sock.fresh).1 = Flow.returned ∧
    (Host.handleClient crowdedFS noFaults fullSend "D".toList
      (some "GET / HTTP/1.1\r\n\r\n".toList) Sock.fresh).2.wire =
      ("HTTP/1.1 200 OK \r\nContent-Length: 2189400035\r\n" ++
        "Content-Type: text/html\r\n\r\n").toList ∧
    sealedFS.file_size "D/e".toList = (sealedFS.contents "D/e".toList).length ∧
    Host.handleClient sealedFS sealedFaults fullSend "D".toList
      (some "GET /e HTTP/1.1\r\n\r\n".toList) Sock.fresh =
      (Flow.diverged,
        ⟨"HTTP/1.1 200 OK \r\nContent-Length: 0\r\nContent-Type: other\r\n\r\n".toList, 2, 0⟩) := by
  have hlen := indexHTML_crowded_length
  have hclean : noFaults.Clean := fun _ => ⟨rfl, rfl, rfl, rfl⟩
  have hcall : handleClientCall crowdedFS "D".toList "GET / HTTP/1.1\r\n\r\n".toList =
      Call.index200 "D/".toList "HTTP/1.1".toList := by decide
  have hhost : Host.handleClientCall crowdedFS noFaults "D".toList
      "GET / HTTP/1.1\r\n\r\n".toList = some (Call.index200 "D/".toList "HTTP/1.1".toList) := by
    rw [host_handleClientCall_clean _ _ _ _ (fun p => (hclean p).1), hcall]
  have hem := createAndSendIndexAndHTTP200_oversize crowdedFS fullSend (fun _ _ => rfl)
    "D/".toList "HTTP/1.1".toList (by decide) (by rw [hlen]; norm_num) (by rw [hlen]; norm_num)
  have h := host_handleClient_of_emits crowdedFS noFaults fullSend "D".toList
    "GET / HTTP/1.1\r\n\r\n".toList _ _ hhost
    (by rw [host_run_clean _ _ _ _ hclean]; exact hem) Sock.fresh
  refine ⟨hlen, h.1, ?_, by decide, by decide⟩
  rw [h.2.1, hlen]
  decide

/-- C5, amended: for every request that yields a 200 response, when every
send transmits its whole buffer and, for a served file of any size, the
file-size query answers with the number of readable bytes (a `uintmax_t`,
below 2^64) and the file's stream opens, respectively, for a synthesized
index, the directory is enumerated and the status query answers on each entry
without an exception and the body with its 4 trailing bytes is shorter than
2^31 bytes, the handler returns and the wire carries the status
line, a `Content-Length` header whose value is the length of the body that
follows the blank line, that body, which is the file content (respectively the
synthesized index HTML), and the 4 bytes `\r\n\r\n`. -/
theorem C5_content_length_equals_body_length (fs : FS) (flt : Faults) (send : Send)
    (rootDir r : List Char) (hfull : ∀ i n, send i n = (n : Int)) :
    (∀ v f, Host.handleClientCall fs flt rootDir r = some (Call.http200 v f) →
      flt.size_throws f = false → flt.open_fails f = false →
      fs.file_size f = (fs.contents f).length → fs.file_size f < 2 ^ 64 →
      (Host.handleClient fs flt send rootDir (some r) Sock.fresh).1 = Flow.returned ∧
      (Host.handleClient fs flt send rootDir (some r) Sock.fresh).2.wire =
        v ++ " 200 OK \r\n".toList ++
          (("Content-Length: ".toList ++ to_string (fs.contents f).length ++ "\r\n".toList ++
            "Content-Type: ".toList ++ fileType f ++ "\r\n\r\n".toList) ++
           (fs.contents f ++ "\r\n\r\n".toList))) ∧
    (∀ d v, Host.handleClientCall fs flt rootDir r = some (Call.index200 d v) →
      flt.iter_throws d = false →
      (∀ name ∈ fs.entries d, flt.status_throws (d ++ "/".toList ++ name) = false) →
      (indexHTML fs d).length + 4 < 2 ^ 31 →
      (Host.handleClient fs flt send rootDir (some r) Sock.fresh).1 = Flow.returned ∧
      (Host.handleClient fs flt send rootDir (some r) Sock.fresh).2.wire =
        v ++ " 200 OK \r\n".toList ++
          (("Content-Length: ".toList ++ to_string (indexHTML fs d).length ++
            "\r\nContent-Type: text/html\r\n\r\n".toList) ++
           (indexHTML fs d ++ "\r\n\r\n".toList))) := by
  have hver := version_length_of_200 fs rootDir r
  constructor
  · intro v f hc hsz hop hsize hmax
    have hv : v.length = 8 :=
      hver.1 v f (host_handleClientCall_eq_some fs flt rootDir r _ hc).symm
    have hem := sendHTTP200_full fs send hfull v f hv hmax
    rw [hsize] at hem
    have hrun : Host.run fs flt send (Call.http200 v f) = sendHTTP200 fs send v f := by
      show Host.sendHTTP200 fs flt send v f = sendHTTP200 fs send v f
      simp only [Host.sendHTTP200, sendHTTP200, Host.sendHead, Host.sendObj, hsz, hop,
        Bool.false_eq_true, if_false]
    have h := host_handleClient_of_emits fs flt send rootDir r _ _ hc
      (by rw [hrun]; exact hem) Sock.fresh
    exact ⟨h.1, by rw [h.2.1]; rfl⟩
  · intro d v hc hiter hent hint
    have hv : v.length = 8 :=
      hver.2 d v (host_handleClientCall_eq_some fs flt rootDir r _ hc).symm
    have hem := createAndSendIndexAndHTTP200_full fs send hfull d v hv hint
    have hany : (fs.entries d).any
        (fun fileName => flt.status_throws (d ++ "/".toList ++ fileName)) = false := by
      rw [List.any_eq_false]
      intro x hx
      show ¬ flt.status_throws (d ++ "/".toList ++ x) = true
      rw [hent x hx]
      exact Bool.false_ne_true
    have hrun : Host.run fs flt send (Call.index200 d v) =
        createAndSendIndexAndHTTP200 fs send d v := by
      show Host.createAndSendIndexAndHTTP200 fs flt send d v =
        createAndSendIndexAndHTTP200 fs send d v
      simp only [Host.createAndSendIndexAndHTTP200, createAndSendIndexAndHTTP200, hiter, hany,
        Bool.or_self, Bool.false_eq_true, if_false]
    have h := host_handleClient_of_emits fs flt send rootDir r _ _ hc
      (by rw [hrun]; exact hem) Sock.fresh
    exact ⟨h.1, by rw [h.2.1]; rfl⟩

/-- C5 at work: `GET /a.txt HTTP/1.0` in the document root `WWW`, where `a.txt`
holds `xyz`, advertises the length 3 and sends `xyz`. -/
theorem C5_content_length_equals_body_length_witness :
    (∀ i n, fullSend i n = (n : Int)) ∧
    (Host.handleClient wwwFS noFaults fullSend "WWW".toList
        (some "GET /a.txt HTTP/1.0\r\n\r\n".toList) Sock.fresh).2.wire =
      ("HTTP/1.0 200 OK \r\nContent-Length: 3\r\nContent-Type: text/plain\r\n\r\nxyz" ++
        "\r\n\r\n").toList := by
  refine ⟨fun _ _ => rfl, ?_⟩
  have h := (C5_content_length_equals_body_length wwwFS noFaults fullSend "WWW".toList
    "GET /a.txt HTTP/1.0\r\n\r\n".toList (fun _ _ => rfl)).1 "HTTP/1.0".toList
    "WWW/a.txt".toList (by decide) (by decide) (by decide) (by decide) (by decide)
  rw [h.2]
  decide

end ToreroServe
